import Mathlib

/-!
# Verification of the cached-cursor layer of `dvush/reth` (`crates/trie-parallel`)

This file is a shallow embedding of `cached_cursors/cached_cursor.rs`,
`cached_cursors/cached_trie_cursor.rs` and `cached_cursors/mod.rs`, together
with proofs about the embedded operations.

Modelling conventions:
* `B256` keys, `Account` payloads, `StorageEntry` payloads, `Nibbles` paths and
  `BranchNodeCompact` nodes are abstracted to `Nat` (the code only uses
  equality and hashing on them; the ordering lives in the data source).
* `AHashMap` tables are modelled as association lists (`alook` / `aput`), and
  the `Arc<Mutex<...>>` shared cache handles become explicit state threading:
  every decorator operation takes the shared cache and returns the updated one.
* The underlying ("real") cursors are external collaborators.  Following the
  spec's cursor capability contract (§4.1, §6, glossary) they are modelled as
  cursors over an immutable sorted list: `seek` positions at the first entry
  with key ≥ the argument and `next` advances by one, returning absence at the
  end of the data.  They count their `seek`/`next` invocations so that
  "zero real cursor operations" claims can be stated.
* Rust panics (`unreachable!`, `expect`) are modelled by the `PResult.panic`
  constructor; fallible real-cursor calls (`?` on `DatabaseError`) are
  modelled in the `F`-prefixed variants of the decorators, whose real cursors
  carry an explicit failure schedule.
-/

/-- Outcome of an operation that can hit a Rust panic (`unreachable!` /
`expect`): either the panic, or a normal value. -/
inductive PResult (α : Type) where
  | panic : PResult α
  | ok (val : α) : PResult α
deriving DecidableEq, Repr

/-- Association-list lookup, modelling `AHashMap::get`. -/
def alook {α β : Type} [DecidableEq α] (m : List (α × β)) (k : α) : Option β :=
  match m with
  | [] => none
  | (k', v) :: t => if k' = k then some v else alook t k

/-- Association-list insert-or-replace, modelling `AHashMap::insert` and
in-place mutation through `AHashMap::entry`. -/
def aput {α β : Type} [DecidableEq α] (m : List (α × β)) (k : α) (v : β) :
    List (α × β) :=
  match m with
  | [] => [(k, v)]
  | (k', v') :: t => if k' = k then (k, v) :: t else (k', v') :: aput t k v

/-! ## The real (uncached) hashed account cursor

Modelled from the spec: the underlying account leaf cursor is an external
collaborator (spec §1 "OUT OF SCOPE", §6).  Its contract (spec §4.1, glossary)
is an ordered cursor over an immutable list of `(key, account)` entries with
strictly increasing keys: `seek` positions at the first entry with key ≥ the
argument, `next` advances one entry.  `seeks`/`nexts` count real invocations
(mirroring the instrumented test cursors in `cached_cursor.rs`). -/

structure RealAccountCursor where
  data : List (Nat × Nat)
  idx : Nat
  seeks : Nat
  nexts : Nat
deriving DecidableEq, Repr

/-- Index of the first entry with key ≥ `k` (= `data.length` if none). -/
def seekIdx (data : List (Nat × Nat)) (k : Nat) : Nat :=
  match data with
  | [] => 0
  | e :: rest => if k ≤ e.1 then 0 else seekIdx rest k + 1

def RealAccountCursor.seek (c : RealAccountCursor) (k : Nat) :
    Option (Nat × Nat) × RealAccountCursor :=
  let i := seekIdx c.data k
  (c.data[i]?, { c with idx := i, seeks := c.seeks + 1 })

def RealAccountCursor.next (c : RealAccountCursor) :
    Option (Nat × Nat) × RealAccountCursor :=
  if c.data.length ≤ c.idx then
    (none, { c with nexts := c.nexts + 1 })
  else
    (c.data[c.idx + 1]?, { c with idx := c.idx + 1, nexts := c.nexts + 1 })

def freshRealAccountCursor (data : List (Nat × Nat)) : RealAccountCursor :=
  { data := data, idx := 0, seeks := 0, nexts := 0 }

/-- Result of `seek(k)` on a fresh cursor over `data`. -/
def specSeek (data : List (Nat × Nat)) (k : Nat) : Option (Nat × Nat) :=
  data[seekIdx data k]?

/-- Result of the `i`-th `next()` (0-based) after `seek(k)` on a fresh cursor. -/
def specNth (data : List (Nat × Nat)) (k : Nat) (i : Nat) : Option (Nat × Nat) :=
  data[seekIdx data k + 1 + i]?

/-- Number of entries strictly after the position reached by `seek(k)`. -/
def availA (data : List (Nat × Nat)) (k : Nat) : Nat :=
  data.length - (seekIdx data k + 1)

/-- Keys strictly increase along the data source. -/
def StrictKeys (data : List (Nat × Nat)) : Prop :=
  List.Pairwise (fun a b => a.1 < b.1) data

instance (data : List (Nat × Nat)) : Decidable (StrictKeys data) :=
  inferInstanceAs (Decidable (List.Pairwise _ data))

/-! ## `CachedHashedAccountCursor` (cached_cursor.rs lines 82-193) -/

/-- `AccountCursorPos` from the source. -/
inductive AccountCursorPos where
  | uninit : AccountCursorPos
  | seek (key : Nat) : AccountCursorPos
  | next (key : Nat) (index : Nat) : AccountCursorPos
deriving DecidableEq, Repr

/-- `NextAccountCacheEntry` from the source. -/
structure NextAccountCacheEntry where
  terminated_size : Option Nat
  values : List (Nat × Nat)
deriving DecidableEq, Repr

/-- `AccountCursorCache` from the source (two `AHashMap` tables). -/
structure AccountCursorCache where
  seek_cache : List (Nat × Option (Nat × Nat))
  next_cache : List (Nat × NextAccountCacheEntry)
deriving DecidableEq, Repr

def AccountCursorCache.empty : AccountCursorCache :=
  { seek_cache := [], next_cache := [] }

/-- The decorator's owned state: wrapped real cursor plus transient position
tracking.  The shared `Arc<Mutex<AccountCursorCache>>` is passed separately to
every operation. -/
structure CachedHashedAccountCursor where
  cursor : RealAccountCursor
  underlying_cursor_last_key : Option Nat
  position : AccountCursorPos
  last_value : Option (Nat × Nat)
deriving DecidableEq, Repr

def CachedHashedAccountCursor.new (cursor : RealAccountCursor) :
    CachedHashedAccountCursor :=
  { cursor := cursor
    underlying_cursor_last_key := none
    position := .uninit
    last_value := none }

/-- `CachedHashedAccountCursor::seek` (lines 123-139). -/
def CachedHashedAccountCursor.seek (s : CachedHashedAccountCursor)
    (cache : AccountCursorCache) (key : Nat) :
    Option (Nat × Nat) × CachedHashedAccountCursor × AccountCursorCache :=
  let s := { s with position := .seek key }
  match alook cache.seek_cache key with
  | some val => (val, { s with last_value := val }, cache)
  | none =>
    let res := RealAccountCursor.seek s.cursor key
    let val := res.1
    let s := { s with cursor := res.2,
                      underlying_cursor_last_key := Option.map Prod.fst val }
    (val, { s with last_value := val },
      { cache with seek_cache := aput cache.seek_cache key val })

/-- The `(key, index)` the next `next()` call will address, `none` at
`Uninit` (where the source hits `unreachable!("next called before seek")`). -/
def nextIndexA : AccountCursorPos → Option (Nat × Nat)
  | .uninit => none
  | .seek key => some (key, 0)
  | .next key index => some (key, index + 1)

/-- Final part of the cache-miss tail of `CachedHashedAccountCursor::next`
(lines 180-191): one real `next`, then append the value or record
termination. -/
def CachedHashedAccountCursor.nextTail (s : CachedHashedAccountCursor)
    (cache : AccountCursorCache) (key : Nat)
    (cache_entry : NextAccountCacheEntry) :
    Option (Nat × Nat) × CachedHashedAccountCursor × AccountCursorCache :=
  let res := RealAccountCursor.next s.cursor
  let next_value := res.1
  let s := { s with cursor := res.2,
                    underlying_cursor_last_key := Option.map Prod.fst next_value }
  match next_value with
  | some v =>
    let entry' := { cache_entry with values := cache_entry.values ++ [v] }
    (some v, { s with last_value := some v },
      { cache with next_cache := aput cache.next_cache key entry' })
  | none =>
    let entry' := { cache_entry with
                    terminated_size := some cache_entry.values.length }
    (none, { s with last_value := none },
      { cache with next_cache := aput cache.next_cache key entry' })

/-- The key the real cursor must sit on before the real `next` of a cache
miss: the last cached value's key, or the seek key if the sequence is still
empty (lines 169-173). -/
def lastKeyA (cache_entry : NextAccountCacheEntry) (key : Nat) : Nat :=
  match cache_entry.values.getLast? with
  | some lv => lv.1
  | none => key

/-- Cache-miss tail of `CachedHashedAccountCursor::next` (lines 168-191):
catch-up seek if the real cursor is not at the last cached key, one real
`next`, then append or record termination. -/
def CachedHashedAccountCursor.nextMiss (s : CachedHashedAccountCursor)
    (cache : AccountCursorCache) (key _index : Nat)
    (cache_entry : NextAccountCacheEntry) :
    Option (Nat × Nat) × CachedHashedAccountCursor × AccountCursorCache :=
  if s.underlying_cursor_last_key = some (lastKeyA cache_entry key) then
    CachedHashedAccountCursor.nextTail s cache key cache_entry
  else
    CachedHashedAccountCursor.nextTail
      { s with
        cursor := (RealAccountCursor.seek s.cursor (lastKeyA cache_entry key)).2
        underlying_cursor_last_key :=
          Option.map Prod.fst (RealAccountCursor.seek s.cursor (lastKeyA cache_entry key)).1 }
      cache key cache_entry

/-- Body of `CachedHashedAccountCursor::next` after the position update and
the `entry(key).or_default()` commit: cache hit (`hit` = the looked-up
`values[index]`), termination check (`term` = the entry's marker), or the
cache-miss tail. -/
def CachedHashedAccountCursor.nextStep (s : CachedHashedAccountCursor)
    (cache : AccountCursorCache) (key index : Nat)
    (cache_entry : NextAccountCacheEntry) :
    Option (Nat × Nat) → Option Nat →
    Option (Nat × Nat) × CachedHashedAccountCursor × AccountCursorCache
  | some val, _ => (some val, { s with last_value := some val }, cache)
  | none, some size =>
    if size ≤ index then
      (none, { s with last_value := none }, cache)
    else
      s.nextMiss cache key index cache_entry
  | none, none =>
    s.nextMiss cache key index cache_entry

/-- `CachedHashedAccountCursor::next` (lines 141-192).  `entry(key).or_default()`
is modelled by reading the entry with default and writing it back. -/
def CachedHashedAccountCursor.next (s : CachedHashedAccountCursor)
    (cache : AccountCursorCache) :
    PResult (Option (Nat × Nat) × CachedHashedAccountCursor × AccountCursorCache) :=
  match nextIndexA s.position with
  | none => .panic
  | some (key, index) =>
    .ok (CachedHashedAccountCursor.nextStep
      { s with position := .next key index }
      { cache with next_cache := aput cache.next_cache key ((alook cache.next_cache key).getD ⟨none, []⟩) }
      key index ((alook cache.next_cache key).getD ⟨none, []⟩)
      ((alook cache.next_cache key).getD ⟨none, []⟩).values[index]?
      ((alook cache.next_cache key).getD ⟨none, []⟩).terminated_size)

/-- Call alphabet of the hashed account cursor. -/
inductive AOp where
  | seek (key : Nat) : AOp
  | next : AOp
deriving DecidableEq, Repr

/-- Run a call sequence through one `CachedHashedAccountCursor`, collecting
the returned values; a panic aborts the whole run. -/
def runA (s : CachedHashedAccountCursor) (cache : AccountCursorCache) :
    List AOp →
    PResult (List (Option (Nat × Nat)) × CachedHashedAccountCursor × AccountCursorCache)
  | [] => .ok ([], s, cache)
  | AOp.seek k :: ops =>
    match runA (s.seek cache k).2.1 (s.seek cache k).2.2 ops with
    | .panic => .panic
    | .ok (rs, s'', cache'') => .ok ((s.seek cache k).1 :: rs, s'', cache'')
  | AOp.next :: ops =>
    match s.next cache with
    | .panic => .panic
    | .ok (r, s', cache') =>
      match runA s' cache' ops with
      | .panic => .panic
      | .ok (rs, s'', cache'') => .ok (r :: rs, s'', cache'')

/-- Run a call sequence directly on a real (uncached) account cursor. -/
def runRealA (c : RealAccountCursor) :
    List AOp → List (Option (Nat × Nat)) × RealAccountCursor
  | [] => ([], c)
  | AOp.seek k :: ops =>
    ((c.seek k).1 :: (runRealA (c.seek k).2 ops).1, (runRealA (c.seek k).2 ops).2)
  | AOp.next :: ops =>
    ((c.next).1 :: (runRealA (c.next).2 ops).1, (runRealA (c.next).2 ops).2)

/-- "Each `next` preceded by some `seek` on the instance": on a fresh
instance this just means the sequence does not begin with `next`. -/
def validA : List AOp → Bool
  | AOp.next :: _ => false
  | _ => true

/-! ### Multiple account decorator instances sharing one cache

Multiple decorator instances, each wrapping its own real cursor over the same
immutable data, share one `Arc<Mutex<AccountCursorCache>>`.  A step either
spawns a fresh decorator or lets an existing one run one operation.  An
operation that would panic (`next` before `seek`) is treated as not
performed. -/

structure AMState where
  cache : AccountCursorCache
  insts : List CachedHashedAccountCursor
deriving DecidableEq, Repr

inductive AMOp where
  | spawn : AMOp
  | act (i : Nat) (op : AOp) : AMOp
deriving DecidableEq, Repr

def amStep (data : List (Nat × Nat)) (st : AMState) : AMOp → AMState
  | .spawn =>
    { st with insts := st.insts ++ [CachedHashedAccountCursor.new (freshRealAccountCursor data)] }
  | .act i op =>
    match st.insts[i]? with
    | none => st
    | some s =>
      match op with
      | .seek k =>
        { cache := (s.seek st.cache k).2.2, insts := st.insts.set i (s.seek st.cache k).2.1 }
      | .next =>
        match s.next st.cache with
        | .panic => st
        | .ok (_, s', cache') => { cache := cache', insts := st.insts.set i s' }

def amRun (data : List (Nat × Nat)) (st : AMState) : List AMOp → AMState
  | [] => st
  | op :: ops => amRun data (amStep data st op) ops

def amInit : AMState := { cache := AccountCursorCache.empty, insts := [] }

/-! ## The real (uncached) hashed storage cursor

Modelled from the spec: the underlying storage leaf cursor is an external
collaborator (spec §1, §6).  The data source is an immutable flat list of
`((hashed account, storage subkey), entry)` records ordered lexicographically;
`seek(account, subkey)` positions at the first record with pair ≥ the argument
and returns only the entry payload (the Rust cursor returns
`Option<StorageEntry>`), and `next` advances one record (the in-repo
`TestStorageCursor` advances the same flat list).  `is_storage_empty` is an
independent probe, modelled by a fixed set of empty accounts as in the test
cursor. -/

def lexLe (a b : Nat × Nat) : Bool :=
  decide (a.1 < b.1) || (decide (a.1 = b.1) && decide (a.2 ≤ b.2))

structure RealStorageCursor where
  data : List ((Nat × Nat) × Nat)
  empty_storage : List Nat
  idx : Nat
  seeks : Nat
  nexts : Nat
  empty_storage_calls : Nat
deriving DecidableEq, Repr

/-- Index of the first record with (account, subkey) ≥ `p` lexicographically. -/
def storageSeekIdx (data : List ((Nat × Nat) × Nat)) (p : Nat × Nat) : Nat :=
  match data with
  | [] => 0
  | e :: rest => if lexLe p e.1 then 0 else storageSeekIdx rest p + 1

def RealStorageCursor.seek (c : RealStorageCursor) (key subkey : Nat) :
    Option Nat × RealStorageCursor :=
  let i := storageSeekIdx c.data (key, subkey)
  (Option.map Prod.snd c.data[i]?, { c with idx := i, seeks := c.seeks + 1 })

def RealStorageCursor.next (c : RealStorageCursor) :
    Option Nat × RealStorageCursor :=
  if c.data.length ≤ c.idx then
    (none, { c with nexts := c.nexts + 1 })
  else
    (Option.map Prod.snd c.data[c.idx + 1]?,
      { c with idx := c.idx + 1, nexts := c.nexts + 1 })

def RealStorageCursor.is_storage_empty (c : RealStorageCursor) (key : Nat) :
    Bool × RealStorageCursor :=
  (key ∈ c.empty_storage,
    { c with empty_storage_calls := c.empty_storage_calls + 1 })

def freshRealStorageCursor (data : List ((Nat × Nat) × Nat))
    (empty_storage : List Nat) : RealStorageCursor :=
  { data := data, empty_storage := empty_storage, idx := 0, seeks := 0,
    nexts := 0, empty_storage_calls := 0 }

/-! ## `CachedHashedStorageCursor` (cached_cursor.rs lines 195-329) -/

/-- `NextStorageCacheEntry` from the source: `values[0]` is the `seek` result,
`values[i]` the `i`-th subsequent `next` result. -/
structure NextStorageCacheEntry where
  terminated_size : Option Nat
  values : List Nat
deriving DecidableEq, Repr

/-- `HashedStorageCursorCache` from the source. -/
structure HashedStorageCursorCache where
  empty_storage : List (Nat × Bool)
  seek_cache : List ((Nat × Nat) × NextStorageCacheEntry)
deriving DecidableEq, Repr

def HashedStorageCursorCache.empty : HashedStorageCursorCache :=
  { empty_storage := [], seek_cache := [] }

/-- `StorageCursorPos` from the source. -/
inductive StorageCursorPos where
  | uninit : StorageCursorPos
  | seek (key : Nat × Nat) (index : Nat) : StorageCursorPos
deriving DecidableEq, Repr

structure CachedHashedStorageCursor where
  cursor : RealStorageCursor
  cursor_pos : StorageCursorPos
  position : StorageCursorPos
deriving DecidableEq, Repr

def CachedHashedStorageCursor.new (cursor : RealStorageCursor) :
    CachedHashedStorageCursor :=
  { cursor := cursor, cursor_pos := .uninit, position := .uninit }

/-- `CachedHashedStorageCursor::is_storage_empty` (lines 233-243). -/
def CachedHashedStorageCursor.is_storage_empty (s : CachedHashedStorageCursor)
    (cache : HashedStorageCursorCache) (key : Nat) :
    Bool × CachedHashedStorageCursor × HashedStorageCursorCache :=
  match alook cache.empty_storage key with
  | some val => (val, s, cache)
  | none =>
    let res := RealStorageCursor.is_storage_empty s.cursor key
    (res.1, { s with cursor := res.2 },
      { cache with empty_storage := aput cache.empty_storage key res.1 })

/-- Cache-miss tail of `CachedHashedStorageCursor::seek` (lines 262-270):
real seek, then append the result or record termination at zero. -/
def CachedHashedStorageCursor.seekMiss (s : CachedHashedStorageCursor)
    (cache : HashedStorageCursorCache) (p : Nat × Nat)
    (entry : NextStorageCacheEntry) :
    Option Nat × CachedHashedStorageCursor × HashedStorageCursorCache :=
  match (RealStorageCursor.seek s.cursor p.1 p.2).1 with
  | some v =>
    (some v,
      { s with cursor := (RealStorageCursor.seek s.cursor p.1 p.2).2, cursor_pos := .seek p 0 },
      { cache with seek_cache := aput cache.seek_cache p { entry with values := entry.values ++ [v] } })
  | none =>
    (none,
      { s with cursor := (RealStorageCursor.seek s.cursor p.1 p.2).2, cursor_pos := .seek p 0 },
      { cache with seek_cache := aput cache.seek_cache p { entry with terminated_size := some 0 } })

/-- Body of `CachedHashedStorageCursor::seek` after the position update and
the `entry(key).or_default()` commit: first-value hit, zero-termination
check, or the real seek. -/
def CachedHashedStorageCursor.seekStep (s : CachedHashedStorageCursor)
    (cache : HashedStorageCursorCache) (p : Nat × Nat)
    (entry : NextStorageCacheEntry) :
    Option Nat → Option Nat × CachedHashedStorageCursor × HashedStorageCursorCache
  | some val => (some val, s, cache)
  | none =>
    if entry.terminated_size = some 0 then
      (none, s, cache)
    else
      CachedHashedStorageCursor.seekMiss s cache p entry

/-- `CachedHashedStorageCursor::seek` (lines 245-271). -/
def CachedHashedStorageCursor.seek (s : CachedHashedStorageCursor)
    (cache : HashedStorageCursorCache) (key subkey : Nat) :
    Option Nat × CachedHashedStorageCursor × HashedStorageCursorCache :=
  CachedHashedStorageCursor.seekStep
    { s with position := .seek (key, subkey) 0 }
    { cache with seek_cache := aput cache.seek_cache (key, subkey) ((alook cache.seek_cache (key, subkey)).getD ⟨none, []⟩) }
    (key, subkey)
    ((alook cache.seek_cache (key, subkey)).getD ⟨none, []⟩)
    ((alook cache.seek_cache (key, subkey)).getD ⟨none, []⟩).values.head?

/-- The catch-up `while current_index < index` loop in
`CachedHashedStorageCursor::next` (lines 315-325), with
`fuel = index - current_index`.  The `Bool` is true when the loop exited
early through the `return Ok(None)` arm after recording termination. -/
def storageNextLoop (s : CachedHashedStorageCursor) (key : Nat × Nat)
    (entry : NextStorageCacheEntry) (current_index : Nat) :
    Nat → CachedHashedStorageCursor × NextStorageCacheEntry × Bool
  | 0 => (s, entry, false)
  | fuel + 1 =>
    match (RealStorageCursor.next s.cursor).1 with
    | some v =>
      storageNextLoop
        { s with cursor := (RealStorageCursor.next s.cursor).2, cursor_pos := .seek key (current_index + 1) }
        key { entry with values := entry.values ++ [v] } (current_index + 1) fuel
    | none =>
      ({ s with cursor := (RealStorageCursor.next s.cursor).2, cursor_pos := .seek key (current_index + 1) },
        { entry with terminated_size := some entry.values.length }, true)

/-- End of the cache-miss tail of `CachedHashedStorageCursor::next`: run the
catch-up loop from physical index `current_index` (lines 310-327), commit the
updated entry, and answer with `values[index]` unless the loop exited early
through the `return Ok(None)` arm. -/
def CachedHashedStorageCursor.nextFinish (s : CachedHashedStorageCursor)
    (cache : HashedStorageCursorCache) (key : Nat × Nat) (index : Nat)
    (cache_entry : NextStorageCacheEntry) (current_index : Nat) :
    Option Nat × CachedHashedStorageCursor × HashedStorageCursorCache :=
  if (storageNextLoop s key cache_entry current_index (index - current_index)).2.2 then
    (none,
      (storageNextLoop s key cache_entry current_index (index - current_index)).1,
      { cache with seek_cache := aput cache.seek_cache key (storageNextLoop s key cache_entry current_index (index - current_index)).2.1 })
  else
    ((storageNextLoop s key cache_entry current_index (index - current_index)).2.1.values[index]?,
      (storageNextLoop s key cache_entry current_index (index - current_index)).1,
      { cache with seek_cache := aput cache.seek_cache key (storageNextLoop s key cache_entry current_index (index - current_index)).2.1 })

/-- Repositioning real seek of the cache-miss tail (lines 300-308): seek the
sequence's key pair, record the result in the entry, and continue from
physical index 0. -/
def CachedHashedStorageCursor.nextReseek (s : CachedHashedStorageCursor)
    (cache : HashedStorageCursorCache) (key : Nat × Nat) (index : Nat)
    (cache_entry : NextStorageCacheEntry) :
    Option Nat × CachedHashedStorageCursor × HashedStorageCursorCache :=
  match (RealStorageCursor.seek s.cursor key.1 key.2).1 with
  | some v =>
    CachedHashedStorageCursor.nextFinish
      { s with cursor := (RealStorageCursor.seek s.cursor key.1 key.2).2, cursor_pos := .seek key 0 }
      cache key index { cache_entry with values := cache_entry.values ++ [v] } 0
  | none =>
    CachedHashedStorageCursor.nextFinish
      { s with cursor := (RealStorageCursor.seek s.cursor key.1 key.2).2, cursor_pos := .seek key 0 }
      cache key index { cache_entry with terminated_size := some 0 } 0

/-- Cache-miss tail of `CachedHashedStorageCursor::next` (lines 294-327):
reposition with a real seek if the physical cursor is keyed elsewhere
(appending the seek result / recording termination), then run the catch-up
loop and answer from the updated entry. -/
def CachedHashedStorageCursor.nextMiss (s : CachedHashedStorageCursor)
    (cache : HashedStorageCursorCache) (key : Nat × Nat) (index : Nat)
    (cache_entry : NextStorageCacheEntry) :
    Option Nat × CachedHashedStorageCursor × HashedStorageCursorCache :=
  match s.cursor_pos with
  | .seek ck j =>
    if ck = key then
      CachedHashedStorageCursor.nextFinish s cache key index cache_entry j
    else
      CachedHashedStorageCursor.nextReseek s cache key index cache_entry
  | .uninit =>
    CachedHashedStorageCursor.nextReseek s cache key index cache_entry

/-- Body of `CachedHashedStorageCursor::next` after the position update and
the `entry(key).or_default()` commit: cache hit, termination check, or the
cache-miss tail. -/
def CachedHashedStorageCursor.nextStep (s : CachedHashedStorageCursor)
    (cache : HashedStorageCursorCache) (key : Nat × Nat) (index : Nat)
    (cache_entry : NextStorageCacheEntry) :
    Option Nat → Option Nat →
    Option Nat × CachedHashedStorageCursor × HashedStorageCursorCache
  | some val, _ => (some val, s, cache)
  | none, some size =>
    if size ≤ index then
      (none, s, cache)
    else
      s.nextMiss cache key index cache_entry
  | none, none =>
    s.nextMiss cache key index cache_entry

/-- `CachedHashedStorageCursor::next` (lines 273-328). -/
def CachedHashedStorageCursor.next (s : CachedHashedStorageCursor)
    (cache : HashedStorageCursorCache) :
    PResult (Option Nat × CachedHashedStorageCursor × HashedStorageCursorCache) :=
  match s.position with
  | .uninit => .panic
  | .seek key i =>
    .ok (CachedHashedStorageCursor.nextStep
      { s with position := .seek key (i + 1) }
      { cache with seek_cache := aput cache.seek_cache key ((alook cache.seek_cache key).getD ⟨none, []⟩) }
      key (i + 1) ((alook cache.seek_cache key).getD ⟨none, []⟩)
      ((alook cache.seek_cache key).getD ⟨none, []⟩).values[i + 1]?
      ((alook cache.seek_cache key).getD ⟨none, []⟩).terminated_size)

/-- Call alphabet of the hashed storage cursor (the claims under study use
`seek`/`next` sequences; `is_storage_empty` is modelled separately). -/
inductive SOp where
  | seek (key subkey : Nat) : SOp
  | next : SOp
deriving DecidableEq, Repr

def runS (s : CachedHashedStorageCursor) (cache : HashedStorageCursorCache) :
    List SOp →
    PResult (List (Option Nat) × CachedHashedStorageCursor × HashedStorageCursorCache)
  | [] => .ok ([], s, cache)
  | SOp.seek k sk :: ops =>
    match runS (s.seek cache k sk).2.1 (s.seek cache k sk).2.2 ops with
    | .panic => .panic
    | .ok (rs, s'', cache'') => .ok ((s.seek cache k sk).1 :: rs, s'', cache'')
  | SOp.next :: ops =>
    match s.next cache with
    | .panic => .panic
    | .ok (r, s', cache') =>
      match runS s' cache' ops with
      | .panic => .panic
      | .ok (rs, s'', cache'') => .ok (r :: rs, s'', cache'')

/-- Run a call sequence directly on a real (uncached) storage cursor. -/
def runRealS (c : RealStorageCursor) :
    List SOp → List (Option Nat) × RealStorageCursor
  | [] => ([], c)
  | SOp.seek k sk :: ops =>
    ((c.seek k sk).1 :: (runRealS (c.seek k sk).2 ops).1, (runRealS (c.seek k sk).2 ops).2)
  | SOp.next :: ops =>
    ((c.next).1 :: (runRealS (c.next).2 ops).1, (runRealS (c.next).2 ops).2)

/-! ## The real (uncached) trie-node cursor

Modelled from the spec: the underlying trie cursor is an external collaborator
(spec §6).  Paths (`Nibbles`) are abstracted to `Nat` with a total order;
`seek_exact` looks up an exact path, `seek` the nearest match ≥ the path, and
`current` reports the key at the cursor's position (spec §4.3).  `TrieKey` is
abstracted to the path `Nat`. -/

structure RealTrieCursor where
  data : List (Nat × Nat)
  idx : Nat
  seeks : Nat
deriving DecidableEq, Repr

def RealTrieCursor.seek_exact (c : RealTrieCursor) (key : Nat) :
    Option (Nat × Nat) × RealTrieCursor :=
  match c.data.findIdx? (fun e => e.1 = key) with
  | some i => (c.data[i]?, { c with idx := i, seeks := c.seeks + 1 })
  | none => (none, { c with idx := c.data.length, seeks := c.seeks + 1 })

def RealTrieCursor.seek (c : RealTrieCursor) (key : Nat) :
    Option (Nat × Nat) × RealTrieCursor :=
  let i := seekIdx c.data key
  (c.data[i]?, { c with idx := i, seeks := c.seeks + 1 })

def RealTrieCursor.current (c : RealTrieCursor) :
    Option Nat × RealTrieCursor :=
  (Option.map Prod.fst c.data[c.idx]?, c)

def freshRealTrieCursor (data : List (Nat × Nat)) : RealTrieCursor :=
  { data := data, idx := 0, seeks := 0 }

/-! ## `CachedTrieCursor` (cached_trie_cursor.rs lines 67-173) -/

/-- `SeekArgs` from the source: the tagged "last seek issued" value. -/
inductive SeekArgs where
  | none : SeekArgs
  | seek_exact (key : Nat) : SeekArgs
  | seek (key : Nat) : SeekArgs
deriving DecidableEq, Repr

/-- `SeekArgs::into_key` from the source. -/
def SeekArgs.into_key : SeekArgs → Option Nat
  | .seek_exact key => some key
  | .seek key => some key
  | .none => Option.none

/-- `TrieCursorCache` from the source (three `AHashMap` tables). -/
structure TrieCursorCache where
  seek : List (Nat × Option (Nat × Nat))
  seek_exact : List (Nat × Option (Nat × Nat))
  current : List (SeekArgs × Option Nat)
deriving DecidableEq, Repr

/-- `TrieCursorCache::default`. -/
def TrieCursorCache.empty : TrieCursorCache :=
  { seek := [], seek_exact := [], current := [] }

structure CachedTrieCursor where
  cursor : RealTrieCursor
  cursor_last_seek : SeekArgs
  last_seek : SeekArgs
deriving DecidableEq, Repr

/-- `CachedTrieCursor::new` (lines 109-118). -/
def CachedTrieCursor.new (cursor : RealTrieCursor) : CachedTrieCursor :=
  { cursor := cursor, cursor_last_seek := .none, last_seek := .none }

/-- `CachedTrieCursor::seek_exact` (lines 121-135). -/
def CachedTrieCursor.seek_exact (s : CachedTrieCursor) (cache : TrieCursorCache)
    (key : Nat) : Option (Nat × Nat) × CachedTrieCursor × TrieCursorCache :=
  let s := { s with last_seek := .seek_exact key }
  match alook cache.seek_exact key with
  | some value => (value, s, cache)
  | Option.none =>
    let res := RealTrieCursor.seek_exact s.cursor key
    let s := { s with cursor := res.2, cursor_last_seek := .seek_exact key }
    (res.1, s, { cache with seek_exact := aput cache.seek_exact key res.1 })

/-- `CachedTrieCursor::seek` (lines 137-151). -/
def CachedTrieCursor.seek (s : CachedTrieCursor) (cache : TrieCursorCache)
    (key : Nat) : Option (Nat × Nat) × CachedTrieCursor × TrieCursorCache :=
  let s := { s with last_seek := .seek key }
  match alook cache.seek key with
  | some value => (value, s, cache)
  | Option.none =>
    let res := RealTrieCursor.seek s.cursor key
    let s := { s with cursor := res.2, cursor_last_seek := .seek key }
    (res.1, s, { cache with seek := aput cache.seek key res.1 })

/-- `CachedTrieCursor::current` (lines 153-172).  The `.expect("current called
before seek")` panic is reachable only when a repositioning real seek is
needed (`cursor_last_seek ≠ last_seek`) while `last_seek` is still `None`. -/
def CachedTrieCursor.current (s : CachedTrieCursor) (cache : TrieCursorCache) :
    PResult (Option Nat × CachedTrieCursor × TrieCursorCache) :=
  match alook cache.current s.last_seek with
  | some value => .ok (value, s, cache)
  | Option.none =>
    let step :=
      if s.cursor_last_seek = s.last_seek then PResult.ok s
      else
        match s.last_seek.into_key with
        | Option.none => PResult.panic
        | some k =>
          let res := RealTrieCursor.seek s.cursor k
          PResult.ok { s with cursor := res.2, cursor_last_seek := s.last_seek }
    match step with
    | .panic => .panic
    | .ok s =>
      let res := RealTrieCursor.current s.cursor
      let s := { s with cursor := res.2 }
      .ok (res.1, s,
        { cache with current := aput cache.current s.last_seek res.1 })

/-! ## Trie cursor factory (cached_trie_cursor.rs lines 13-65)

`TrieCursorsCaches.storage_cache` models the
`Arc<Mutex<AHashMap<B256, Arc<Mutex<TrieCursorCache>>>>>` map from account
identity to its lazily created sub-cache.  Because every cursor bound to the
same account shares the same `Arc`, mutations through any such cursor are
modelled as updates of the outer map at that account's key, and a cursor is
represented by its bound account key plus its owned state. -/

structure TrieCursorsCaches where
  account_cache : TrieCursorCache
  storage_cache : List (Nat × TrieCursorCache)
deriving DecidableEq, Repr

def TrieCursorsCaches.empty : TrieCursorsCaches :=
  { account_cache := TrieCursorCache.empty, storage_cache := [] }

/-- `CachedTrieCursorFactory::storage_tries_cursor` (lines 53-64): look up or
lazily insert the per-account sub-cache and bind a fresh decorator to it. -/
def CachedTrieCursorFactory.storage_tries_cursor (caches : TrieCursorsCaches)
    (hashed_address : Nat) (cursor : RealTrieCursor) :
    CachedTrieCursor × TrieCursorsCaches :=
  let storage_cache :=
    match alook caches.storage_cache hashed_address with
    | some _ => caches.storage_cache
    | Option.none => aput caches.storage_cache hashed_address TrieCursorCache.empty
  (CachedTrieCursor.new cursor, { caches with storage_cache := storage_cache })

/-- Call alphabet of the trie cursor. -/
inductive TOp where
  | seek (key : Nat) : TOp
  | seek_exact (key : Nat) : TOp
  | current : TOp
deriving DecidableEq, Repr

/-- Result of a trie cursor call. -/
inductive TRes where
  | node (value : Option (Nat × Nat)) : TRes
  | curkey (value : Option Nat) : TRes
deriving DecidableEq, Repr

/-- One call on a `CachedTrieCursor` against a given sub-cache. -/
def CachedTrieCursor.step (s : CachedTrieCursor) (cache : TrieCursorCache) :
    TOp → PResult (TRes × CachedTrieCursor × TrieCursorCache)
  | .seek k =>
    let res := s.seek cache k
    .ok (.node res.1, res.2.1, res.2.2)
  | .seek_exact k =>
    let res := s.seek_exact cache k
    .ok (.node res.1, res.2.1, res.2.2)
  | .current =>
    match s.current cache with
    | .panic => .panic
    | .ok (r, s', cache') => .ok (.curkey r, s', cache')

/-- One call on a storage-trie `CachedTrieCursor` bound to account `a`: the
shared sub-cache is read out of and written back into the factory's outer
map. -/
def storageTrieStep (caches : TrieCursorsCaches) (a : Nat)
    (s : CachedTrieCursor) (op : TOp) :
    PResult (TRes × CachedTrieCursor × TrieCursorsCaches) :=
  match s.step ((alook caches.storage_cache a).getD TrieCursorCache.empty) op with
  | .panic => .panic
  | .ok (r, s', sub') =>
    .ok (r, s', { caches with storage_cache := aput caches.storage_cache a sub' })

/-! ## `HashedCursorCache` and `CursorCache` (cached_cursor.rs lines 6-45,
mod.rs lines 7-11) -/

structure HashedCursorCache where
  account_cursor_cache : AccountCursorCache
  storage_cursor_cache : HashedStorageCursorCache
deriving DecidableEq, Repr

/-- `HashedCursorCache::size` (lines 12-36): account seek entries, plus all
cached account next-values, plus all cached storage sequence values, plus
empty-storage flags. -/
def HashedCursorCache.size (h : HashedCursorCache) : Nat :=
  h.account_cursor_cache.seek_cache.length
    + (h.account_cursor_cache.next_cache.map
        (fun p => p.2.values.length)).sum
    + (h.storage_cursor_cache.seek_cache.map
        (fun p => p.2.values.length)).sum
    + h.storage_cursor_cache.empty_storage.length

/-- `CursorCache` from mod.rs. -/
structure CursorCache where
  hashed_cursor : HashedCursorCache
  trie_cursor : TrieCursorsCaches
deriving DecidableEq, Repr

/-- Number of memoized entries in one trie-node sub-cache (its three tables). -/
def TrieCursorCache.entryCount (t : TrieCursorCache) : Nat :=
  t.seek.length + t.seek_exact.length + t.current.length

/-- The total entry count described by the claim for `size()`: every table
held by the shared cache handle, *including* termination markers and the
trie-node tables for the account trie and every per-account storage trie. -/
def claimedSize (c : CursorCache) : Nat :=
  c.hashed_cursor.account_cursor_cache.seek_cache.length
    + (c.hashed_cursor.account_cursor_cache.next_cache.map
        (fun p => p.2.values.length)).sum
    + (c.hashed_cursor.account_cursor_cache.next_cache.map
        (fun p => if p.2.terminated_size.isSome then 1 else 0)).sum
    + (c.hashed_cursor.storage_cursor_cache.seek_cache.map
        (fun p => p.2.values.length)).sum
    + (c.hashed_cursor.storage_cursor_cache.seek_cache.map
        (fun p => if p.2.terminated_size.isSome then 1 else 0)).sum
    + c.hashed_cursor.storage_cursor_cache.empty_storage.length
    + c.trie_cursor.account_cache.entryCount
    + (c.trie_cursor.storage_cache.map (fun p => p.2.entryCount)).sum

/-- The entry count `size()` actually reports, phrased per the amended claim:
a fold over the four hashed-cursor tables only, counting one per account seek
entry, one per memoized account successor value, one per memoized storage
sequence value and one per empty-storage flag; termination markers and
trie-node tables are not counted. -/
def amendedSize (c : CursorCache) : Nat :=
  (c.hashed_cursor.account_cursor_cache.seek_cache.foldr
    (fun _ acc => acc + 1) 0)
    + (c.hashed_cursor.account_cursor_cache.next_cache.foldr
        (fun p acc => acc + p.2.values.length) 0)
    + (c.hashed_cursor.storage_cursor_cache.seek_cache.foldr
        (fun p acc => acc + p.2.values.length) 0)
    + (c.hashed_cursor.storage_cursor_cache.empty_storage.foldr
        (fun _ acc => acc + 1) 0)

/-! ## Fallible variants

The decorators propagate `DatabaseError` from every real-cursor call with `?`.
To reason about the error paths, the `F`-prefixed models give each real cursor
an explicit failure schedule (`fails`): each real call consumes one entry, and
fails iff that entry is `true`.  `DatabaseError` is abstracted to `Unit`.
The cache plumbing is identical to the total models above; in particular
`entry(...).or_default()` insertions and in-place entry mutations that have
already happened when `?` fires remain committed. -/

structure FRealAccountCursor where
  data : List (Nat × Nat)
  idx : Nat
  fails : List Bool
deriving DecidableEq, Repr

def FRealAccountCursor.seek (c : FRealAccountCursor) (k : Nat) :
    Except Unit (Option (Nat × Nat)) × FRealAccountCursor :=
  let i := seekIdx c.data k
  match c.fails with
  | true :: rest => (.error (), { c with fails := rest })
  | false :: rest => (.ok c.data[i]?, { c with idx := i, fails := rest })
  | [] => (.ok c.data[i]?, { c with idx := i })

def FRealAccountCursor.next (c : FRealAccountCursor) :
    Except Unit (Option (Nat × Nat)) × FRealAccountCursor :=
  let stepped :=
    if c.data.length ≤ c.idx then (Option.none, c)
    else (c.data[c.idx + 1]?, { c with idx := c.idx + 1 })
  match c.fails with
  | true :: rest => (.error (), { c with fails := rest })
  | false :: rest => (.ok stepped.1, { stepped.2 with fails := rest })
  | [] => (.ok stepped.1, stepped.2)

structure FCachedHashedAccountCursor where
  cursor : FRealAccountCursor
  underlying_cursor_last_key : Option Nat
  position : AccountCursorPos
  last_value : Option (Nat × Nat)
deriving DecidableEq, Repr

/-- Fallible `CachedHashedAccountCursor::seek`. -/
def FCachedHashedAccountCursor.seek (s : FCachedHashedAccountCursor)
    (cache : AccountCursorCache) (key : Nat) :
    Except Unit (Option (Nat × Nat)) × FCachedHashedAccountCursor × AccountCursorCache :=
  let s := { s with position := .seek key }
  match alook cache.seek_cache key with
  | some val => (.ok val, { s with last_value := val }, cache)
  | none =>
    let res := FRealAccountCursor.seek s.cursor key
    match res.1 with
    | .error e => (.error e, { s with cursor := res.2 }, cache)
    | .ok val =>
      let s := { s with cursor := res.2,
                        underlying_cursor_last_key := Option.map Prod.fst val }
      (.ok val, { s with last_value := val },
        { cache with seek_cache := aput cache.seek_cache key val })

/-- Fallible cache-miss tail of `CachedHashedAccountCursor::next`. -/
def FCachedHashedAccountCursor.nextMiss (s : FCachedHashedAccountCursor)
    (cache : AccountCursorCache) (key : Nat)
    (cache_entry : NextAccountCacheEntry) :
    Except Unit (Option (Nat × Nat)) × FCachedHashedAccountCursor × AccountCursorCache :=
  let last_key :=
    match cache_entry.values.getLast? with
    | some lv => lv.1
    | none => key
  let step :=
    if s.underlying_cursor_last_key = some last_key then Except.ok s
    else
      let res := FRealAccountCursor.seek s.cursor last_key
      match res.1 with
      | .error e => Except.error (e, { s with cursor := res.2 })
      | .ok val =>
        Except.ok { s with cursor := res.2,
                           underlying_cursor_last_key := Option.map Prod.fst val }
  match step with
  | .error es => (.error es.1, es.2, cache)
  | .ok s =>
    let res := FRealAccountCursor.next s.cursor
    match res.1 with
    | .error e => (.error e, { s with cursor := res.2 }, cache)
    | .ok next_value =>
      let s := { s with cursor := res.2,
                        underlying_cursor_last_key := Option.map Prod.fst next_value }
      match next_value with
      | some v =>
        let entry' := { cache_entry with values := cache_entry.values ++ [v] }
        (.ok (some v), { s with last_value := some v },
          { cache with next_cache := aput cache.next_cache key entry' })
      | none =>
        let entry' := { cache_entry with
                        terminated_size := some cache_entry.values.length }
        (.ok none, { s with last_value := none },
          { cache with next_cache := aput cache.next_cache key entry' })

/-- Fallible `CachedHashedAccountCursor::next`. -/
def FCachedHashedAccountCursor.next (s : FCachedHashedAccountCursor)
    (cache : AccountCursorCache) :
    PResult (Except Unit (Option (Nat × Nat)) × FCachedHashedAccountCursor × AccountCursorCache) :=
  match nextIndexA s.position with
  | none => .panic
  | some (key, index) =>
    let s := { s with position := .next key index }
    let cache_entry := (alook cache.next_cache key).getD ⟨none, []⟩
    let cache := { cache with next_cache := aput cache.next_cache key cache_entry }
    match cache_entry.values[index]? with
    | some val => .ok (.ok (some val), { s with last_value := some val }, cache)
    | none =>
      match cache_entry.terminated_size with
      | some size =>
        if size ≤ index then
          .ok (.ok none, { s with last_value := none }, cache)
        else
          .ok (s.nextMiss cache key cache_entry)
      | none =>
        .ok (s.nextMiss cache key cache_entry)

structure FRealStorageCursor where
  data : List ((Nat × Nat) × Nat)
  empty_storage : List Nat
  idx : Nat
  fails : List Bool
deriving DecidableEq, Repr

def FRealStorageCursor.seek (c : FRealStorageCursor) (key subkey : Nat) :
    Except Unit (Option Nat) × FRealStorageCursor :=
  let i := storageSeekIdx c.data (key, subkey)
  match c.fails with
  | true :: rest => (.error (), { c with fails := rest })
  | false :: rest => (.ok (Option.map Prod.snd c.data[i]?), { c with idx := i, fails := rest })
  | [] => (.ok (Option.map Prod.snd c.data[i]?), { c with idx := i })

def FRealStorageCursor.next (c : FRealStorageCursor) :
    Except Unit (Option Nat) × FRealStorageCursor :=
  let stepped :=
    if c.data.length ≤ c.idx then (Option.none, c)
    else (Option.map Prod.snd c.data[c.idx + 1]?, { c with idx := c.idx + 1 })
  match c.fails with
  | true :: rest => (.error (), { c with fails := rest })
  | false :: rest => (.ok stepped.1, { stepped.2 with fails := rest })
  | [] => (.ok stepped.1, stepped.2)

def FRealStorageCursor.is_storage_empty (c : FRealStorageCursor) (key : Nat) :
    Except Unit Bool × FRealStorageCursor :=
  match c.fails with
  | true :: rest => (.error (), { c with fails := rest })
  | false :: rest => (.ok (key ∈ c.empty_storage), { c with fails := rest })
  | [] => (.ok (key ∈ c.empty_storage), c)

structure FCachedHashedStorageCursor where
  cursor : FRealStorageCursor
  cursor_pos : StorageCursorPos
  position : StorageCursorPos
deriving DecidableEq, Repr

/-- Fallible `CachedHashedStorageCursor::is_storage_empty`. -/
def FCachedHashedStorageCursor.is_storage_empty (s : FCachedHashedStorageCursor)
    (cache : HashedStorageCursorCache) (key : Nat) :
    Except Unit Bool × FCachedHashedStorageCursor × HashedStorageCursorCache :=
  match alook cache.empty_storage key with
  | some val => (.ok val, s, cache)
  | none =>
    let res := FRealStorageCursor.is_storage_empty s.cursor key
    match res.1 with
    | .error e => (.error e, { s with cursor := res.2 }, cache)
    | .ok val =>
      (.ok val, { s with cursor := res.2 },
        { cache with empty_storage := aput cache.empty_storage key val })

/-- Fallible `CachedHashedStorageCursor::seek`. -/
def FCachedHashedStorageCursor.seek (s : FCachedHashedStorageCursor)
    (cache : HashedStorageCursorCache) (key subkey : Nat) :
    Except Unit (Option Nat) × FCachedHashedStorageCursor × HashedStorageCursorCache :=
  let p := (key, subkey)
  let s := { s with position := .seek p 0 }
  let entry := (alook cache.seek_cache p).getD ⟨none, []⟩
  let cache := { cache with seek_cache := aput cache.seek_cache p entry }
  match entry.values.head? with
  | some val => (.ok (some val), s, cache)
  | none =>
    if entry.terminated_size = some 0 then
      (.ok none, s, cache)
    else
      let res := FRealStorageCursor.seek s.cursor p.1 p.2
      match res.1 with
      | .error e => (.error e, { s with cursor := res.2 }, cache)
      | .ok val =>
        let s := { s with cursor := res.2, cursor_pos := .seek p 0 }
        match val with
        | some v =>
          let entry' := { entry with values := entry.values ++ [v] }
          (.ok (some v), s,
            { cache with seek_cache := aput cache.seek_cache p entry' })
        | none =>
          let entry' := { entry with terminated_size := some 0 }
          (.ok none, s,
            { cache with seek_cache := aput cache.seek_cache p entry' })

/-- Loop exits of the fallible storage catch-up loop. -/
inductive FLoopExit where
  | err : FLoopExit
  | early : FLoopExit
  | done : FLoopExit
deriving DecidableEq, Repr

/-- Fallible catch-up loop of `CachedHashedStorageCursor::next`: entries
appended before a later iteration fails stay committed. -/
def fStorageNextLoop (s : FCachedHashedStorageCursor) (key : Nat × Nat)
    (entry : NextStorageCacheEntry) (current_index : Nat) :
    Nat → FCachedHashedStorageCursor × NextStorageCacheEntry × FLoopExit
  | 0 => (s, entry, .done)
  | fuel + 1 =>
    let ci := current_index + 1
    let res := FRealStorageCursor.next s.cursor
    match res.1 with
    | .error _ => ({ s with cursor := res.2 }, entry, .err)
    | .ok val =>
      let s := { s with cursor := res.2, cursor_pos := .seek key ci }
      match val with
      | some v =>
        fStorageNextLoop s key { entry with values := entry.values ++ [v] } ci fuel
      | none =>
        (s, { entry with terminated_size := some entry.values.length }, .early)

/-- Fallible cache-miss tail of `CachedHashedStorageCursor::next`. -/
def FCachedHashedStorageCursor.nextMiss (s : FCachedHashedStorageCursor)
    (cache : HashedStorageCursorCache) (key : Nat × Nat) (index : Nat)
    (cache_entry : NextStorageCacheEntry) :
    Except Unit (Option Nat) × FCachedHashedStorageCursor × HashedStorageCursorCache :=
  let current_key :=
    match s.cursor_pos with
    | .seek ck _ => some ck
    | .uninit => none
  let step :=
    if current_key = some key then Except.ok (s, cache_entry)
    else
      let res := FRealStorageCursor.seek s.cursor key.1 key.2
      match res.1 with
      | .error e => Except.error (e, { s with cursor := res.2 })
      | .ok val =>
        let s := { s with cursor := res.2, cursor_pos := .seek key 0 }
        match val with
        | some v =>
          Except.ok (s, { cache_entry with values := cache_entry.values ++ [v] })
        | none =>
          Except.ok (s, { cache_entry with terminated_size := some 0 })
  match step with
  | .error es => (.error es.1, es.2, cache)
  | .ok sec =>
    let s := sec.1
    let cache_entry := sec.2
    let current_index :=
      match s.cursor_pos with
      | .seek _ j => j
      | .uninit => 0
    let lres := fStorageNextLoop s key cache_entry current_index (index - current_index)
    let s := lres.1
    let cache_entry := lres.2.1
    let cache := { cache with seek_cache := aput cache.seek_cache key cache_entry }
    match lres.2.2 with
    | .err => (.error (), s, cache)
    | .early => (.ok none, s, cache)
    | .done => (.ok cache_entry.values[index]?, s, cache)

/-- Fallible `CachedHashedStorageCursor::next`. -/
def FCachedHashedStorageCursor.next (s : FCachedHashedStorageCursor)
    (cache : HashedStorageCursorCache) :
    PResult (Except Unit (Option Nat) × FCachedHashedStorageCursor × HashedStorageCursorCache) :=
  match s.position with
  | .uninit => .panic
  | .seek key i =>
    let index := i + 1
    let s := { s with position := .seek key index }
    let cache_entry := (alook cache.seek_cache key).getD ⟨none, []⟩
    let cache := { cache with seek_cache := aput cache.seek_cache key cache_entry }
    match cache_entry.values[index]? with
    | some val => .ok (.ok (some val), s, cache)
    | none =>
      match cache_entry.terminated_size with
      | some size =>
        if size ≤ index then
          .ok (.ok none, s, cache)
        else
          .ok (s.nextMiss cache key index cache_entry)
      | none =>
        .ok (s.nextMiss cache key index cache_entry)

structure FRealTrieCursor where
  data : List (Nat × Nat)
  idx : Nat
  fails : List Bool
deriving DecidableEq, Repr

def FRealTrieCursor.seek_exact (c : FRealTrieCursor) (key : Nat) :
    Except Unit (Option (Nat × Nat)) × FRealTrieCursor :=
  let stepped :=
    match c.data.findIdx? (fun e => e.1 = key) with
    | some i => (c.data[i]?, { c with idx := i })
    | none => (Option.none, { c with idx := c.data.length })
  match c.fails with
  | true :: rest => (.error (), { c with fails := rest })
  | false :: rest => (.ok stepped.1, { stepped.2 with fails := rest })
  | [] => (.ok stepped.1, stepped.2)

def FRealTrieCursor.seek (c : FRealTrieCursor) (key : Nat) :
    Except Unit (Option (Nat × Nat)) × FRealTrieCursor :=
  let i := seekIdx c.data key
  match c.fails with
  | true :: rest => (.error (), { c with fails := rest })
  | false :: rest => (.ok c.data[i]?, { c with idx := i, fails := rest })
  | [] => (.ok c.data[i]?, { c with idx := i })

def FRealTrieCursor.current (c : FRealTrieCursor) :
    Except Unit (Option Nat) × FRealTrieCursor :=
  match c.fails with
  | true :: rest => (.error (), { c with fails := rest })
  | false :: rest => (.ok (Option.map Prod.fst c.data[c.idx]?), { c with fails := rest })
  | [] => (.ok (Option.map Prod.fst c.data[c.idx]?), c)

structure FCachedTrieCursor where
  cursor : FRealTrieCursor
  cursor_last_seek : SeekArgs
  last_seek : SeekArgs
deriving DecidableEq, Repr

/-- Fallible `CachedTrieCursor::seek_exact`. -/
def FCachedTrieCursor.seek_exact (s : FCachedTrieCursor) (cache : TrieCursorCache)
    (key : Nat) : Except Unit (Option (Nat × Nat)) × FCachedTrieCursor × TrieCursorCache :=
  let s := { s with last_seek := .seek_exact key }
  match alook cache.seek_exact key with
  | some value => (.ok value, s, cache)
  | Option.none =>
    let res := FRealTrieCursor.seek_exact s.cursor key
    match res.1 with
    | .error e => (.error e, { s with cursor := res.2 }, cache)
    | .ok value =>
      let s := { s with cursor := res.2, cursor_last_seek := .seek_exact key }
      (.ok value, s, { cache with seek_exact := aput cache.seek_exact key value })

/-- Fallible `CachedTrieCursor::seek`. -/
def FCachedTrieCursor.seek (s : FCachedTrieCursor) (cache : TrieCursorCache)
    (key : Nat) : Except Unit (Option (Nat × Nat)) × FCachedTrieCursor × TrieCursorCache :=
  let s := { s with last_seek := .seek key }
  match alook cache.seek key with
  | some value => (.ok value, s, cache)
  | Option.none =>
    let res := FRealTrieCursor.seek s.cursor key
    match res.1 with
    | .error e => (.error e, { s with cursor := res.2 }, cache)
    | .ok value =>
      let s := { s with cursor := res.2, cursor_last_seek := .seek key }
      (.ok value, s, { cache with seek := aput cache.seek key value })

/-- Fallible `CachedTrieCursor::current`. -/
def FCachedTrieCursor.current (s : FCachedTrieCursor) (cache : TrieCursorCache) :
    PResult (Except Unit (Option Nat) × FCachedTrieCursor × TrieCursorCache) :=
  match alook cache.current s.last_seek with
  | some value => .ok (.ok value, s, cache)
  | Option.none =>
    let step :=
      if s.cursor_last_seek = s.last_seek then PResult.ok (Except.ok s)
      else
        match s.last_seek.into_key with
        | Option.none => PResult.panic
        | some k =>
          let res := FRealTrieCursor.seek s.cursor k
          match res.1 with
          | .error e => PResult.ok (Except.error (e, { s with cursor := res.2 }))
          | .ok _ =>
            PResult.ok (Except.ok { s with cursor := res.2, cursor_last_seek := s.last_seek })
    match step with
    | .panic => .panic
    | .ok (.error es) => .ok (.error es.1, es.2, cache)
    | .ok (.ok s) =>
      let res := FRealTrieCursor.current s.cursor
      match res.1 with
      | .error e => .ok (.error e, { s with cursor := res.2 }, cache)
      | .ok value =>
        let s := { s with cursor := res.2 }
        .ok (.ok value, s,
          { cache with current := aput cache.current s.last_seek value })

/-! ## Specification predicates -/

/-- A cached account sequence entry agrees with the data source: each cached
value is the corresponding successor of the seek position, and a termination
marker records exactly the number of available successors (at which point the
value list is complete). -/
def entryConsistentA (data : List (Nat × Nat)) (k : Nat)
    (e : NextAccountCacheEntry) : Prop :=
  (∀ i, i < e.values.length → e.values[i]? = specNth data k i) ∧
  (∀ n, e.terminated_size = some n → n = availA data k ∧ e.values.length = n)

/-- The shared account cache tables agree with the data source. -/
def AccCacheConsistent (data : List (Nat × Nat)) (c : AccountCursorCache) : Prop :=
  (∀ k v, alook c.seek_cache k = some v → v = specSeek data k) ∧
  (∀ k e, alook c.next_cache k = some e → entryConsistentA data k e)

/-- The decorator's physical-position tracking is sound: its real cursor runs
over `data`, and whenever `underlying_cursor_last_key` is `Some k'`, the real
cursor is positioned at the entry with key `k'`. -/
def cursorSoundA (data : List (Nat × Nat)) (s : CachedHashedAccountCursor) : Prop :=
  s.cursor.data = data ∧
  (∀ k', s.underlying_cursor_last_key = some k' →
    Option.map Prod.fst data[s.cursor.idx]? = some k')

/-- Logical position is covered by the cache: a decorator at `Next(k, i)` has
already ensured that index `i` of `k`'s sequence is either cached or past a
termination marker. -/
def posOKA (c : AccountCursorCache) : AccountCursorPos → Prop
  | .uninit => True
  | .seek _ => True
  | .next k i =>
    i < ((alook c.next_cache k).getD ⟨none, []⟩).values.length ∨
      (∃ n, ((alook c.next_cache k).getD ⟨none, []⟩).terminated_size = some n ∧ n ≤ i)

/-- Correspondence between the decorator's logical position and the state of
a fresh uncached cursor that has been driven through the same calls. -/
def linkPosA (data : List (Nat × Nat)) (pos : AccountCursorPos)
    (f : RealAccountCursor) : Prop :=
  f.data = data ∧
  match pos with
  | .uninit => f.idx = 0
  | .seek k => f.idx = seekIdx data k
  | .next k i => f.idx = min data.length (seekIdx data k + 1 + i)

/-- The account cache only grows: seek memoizations are never overwritten,
sequence values are only appended, and termination markers are never changed
once set. -/
def cacheLeA (c c' : AccountCursorCache) : Prop :=
  (∀ k v, alook c.seek_cache k = some v → alook c'.seek_cache k = some v) ∧
  (∀ k e, alook c.next_cache k = some e →
    ∃ e', alook c'.next_cache k = some e' ∧
      (∃ t, e'.values = e.values ++ t) ∧
      (e.terminated_size = none ∨ e'.terminated_size = e.terminated_size))

/-- Invariant of a family of account decorator instances sharing one cache
over the same immutable data. -/
def AMInv (data : List (Nat × Nat)) (st : AMState) : Prop :=
  AccCacheConsistent data st.cache ∧
  ∀ s ∈ st.insts, cursorSoundA data s ∧ posOKA st.cache s.position

/-! ## Specification helpers for the storage cursor -/

/-- Payload of the `i`-th record of the storage data source. -/
def sPayload (data : List ((Nat × Nat) × Nat)) (i : Nat) : Option Nat :=
  Option.map Prod.snd data[i]?

/-- The `i`-th result (0 = the `seek`, `i ≥ 1` = the `i`-th `next`) a fresh
uncached storage cursor produces after `seek p`. -/
def specSSeq (data : List ((Nat × Nat) × Nat)) (p : Nat × Nat) (i : Nat) :
    Option Nat :=
  sPayload data (storageSeekIdx data p + i)

/-- Results of `seek p` followed by `n` `next` calls on a fresh uncached
storage cursor. -/
def specSList (data : List ((Nat × Nat) × Nat)) (p : Nat × Nat) (n : Nat) :
    List (Option Nat) :=
  (List.range (n + 1)).map (specSSeq data p)

/-- Number of records from the seek position of `p` to the end of the data. -/
def availS (data : List ((Nat × Nat) × Nat)) (p : Nat × Nat) : Nat :=
  data.length - storageSeekIdx data p

/-- Lexicographic strict order on (account, subkey) pairs. -/
def lexLt (a b : Nat × Nat) : Prop :=
  a.1 < b.1 ∨ (a.1 = b.1 ∧ a.2 < b.2)

instance (a b : Nat × Nat) : Decidable (lexLt a b) := by
  unfold lexLt; infer_instance

/-- (account, subkey) pairs strictly increase along the storage data source. -/
def StrictPairsS (data : List ((Nat × Nat) × Nat)) : Prop :=
  List.Pairwise (fun a b => lexLt a.1 b.1) data

instance (data : List ((Nat × Nat) × Nat)) : Decidable (StrictPairsS data) :=
  inferInstanceAs (Decidable (List.Pairwise _ data))

/-- Closed form of the cached values after the first pass `seek p` + `i`
`next` calls from an empty cache: the first `min (i+1) (availS data p)`
payloads from the seek position. -/
def p1values (data : List ((Nat × Nat) × Nat)) (p : Nat × Nat) (i : Nat) :
    List Nat :=
  ((data.drop (storageSeekIdx data p)).take (min (i + 1) (availS data p))).map
    Prod.snd

/-- Closed form of the cache entry for `p` after the first pass. -/
def P1entry (data : List ((Nat × Nat) × Nat)) (p : Nat × Nat) (i : Nat) :
    NextStorageCacheEntry :=
  { terminated_size :=
      if availS data p ≤ i then some (availS data p) else none
    values := p1values data p i }

/-- Closed form of the whole storage cache after the first pass. -/
def P1cache (data : List ((Nat × Nat) × Nat)) (p : Nat × Nat) (i : Nat) :
    HashedStorageCursorCache :=
  { empty_storage := [], seek_cache := [(p, P1entry data p i)] }

/-- Closed form of the decorator state after the first pass. -/
def P1inst (data : List ((Nat × Nat) × Nat)) (es : List Nat) (p : Nat × Nat)
    (i : Nat) : CachedHashedStorageCursor :=
  { cursor :=
      { data := data, empty_storage := es,
        idx := storageSeekIdx data p + min i (availS data p),
        seeks := 1, nexts := min i (availS data p), empty_storage_calls := 0 }
    cursor_pos := .seek p (min i (availS data p))
    position := .seek p i }

/-- Closed form of the decorator state after a first pass `seek p` + `i`
`next` calls for `p` (no usable cache entry for `p` at the seek), starting
from the real cursor `c0`. -/
def G1inst (c0 : RealStorageCursor) (p : Nat × Nat) (i : Nat) :
    CachedHashedStorageCursor :=
  { cursor :=
      { c0 with
        idx := storageSeekIdx c0.data p + min i (availS c0.data p)
        seeks := c0.seeks + 1
        nexts := c0.nexts + min i (availS c0.data p) }
    cursor_pos := .seek p (min i (availS c0.data p))
    position := .seek p i }

/-- Results of the `next` calls numbered `i+1 … i+n` after a `seek p` on a
fresh uncached storage cursor. -/
def specSTail (data : List ((Nat × Nat) × Nat)) (p : Nat × Nat) (i n : Nat) :
    List (Option Nat) :=
  (List.range n).map (fun j => specSSeq data p (i + 1 + j))

/-! ## Basic lemmas: association lists, list indexing, seek indices -/

theorem alook_aput_self {α β : Type} [DecidableEq α] (m : List (α × β)) (k : α)
    (v : β) : alook (aput m k v) k = some v := by
  induction m with
  | nil => simp [alook, aput]
  | cons e t ih =>
    by_cases h : e.1 = k
    · simp [alook, aput, h]
    · simp [alook, aput, h, ih]

theorem alook_aput_ne {α β : Type} [DecidableEq α] (m : List (α × β)) (k k' : α)
    (v : β) (h : k' ≠ k) : alook (aput m k v) k' = alook m k' := by
  have h1 : ¬ (k = k') := fun hk => h hk.symm
  induction m with
  | nil => simp [alook, aput, h1]
  | cons e t ih =>
    by_cases he : e.1 = k
    · have h2 : ¬ (e.1 = k') := by rw [he]; exact h1
      simp [alook, aput, he, h1, h2]
    · simp only [aput, if_neg he]
      by_cases he' : e.1 = k'
      · simp [alook, he']
      · simp [alook, he', ih]

theorem aput_alook_eq {α β : Type} [DecidableEq α] (m : List (α × β)) (k : α)
    (v : β) (h : alook m k = some v) : aput m k v = m := by
  induction m with
  | nil => simp [alook] at h
  | cons e t ih =>
    by_cases he : e.1 = k
    · simp only [alook, if_pos he] at h
      cases e with
      | mk a b =>
        simp only at he
        subst he
        simp only [Option.some.injEq] at h
        subst h
        simp [aput]
    · simp only [alook, if_neg he] at h
      simp [aput, he, ih h]

theorem getElem?_snoc {α : Type} (l : List α) (a : α) (i : Nat) :
    (l ++ [a])[i]? =
      if i < l.length then l[i]? else if i = l.length then some a else none := by
  rcases Nat.lt_trichotomy i l.length with h | h | h
  · simp [List.getElem?_append_left h, h]
  · subst h; simp
  · rw [List.getElem?_append_right (by omega)]
    rw [List.getElem?_eq_none (by simp; omega)]
    simp only [if_neg (by omega : ¬ i < l.length), if_neg (by omega : ¬ i = l.length)]

theorem seekIdx_le_length (data : List (Nat × Nat)) (k : Nat) :
    seekIdx data k ≤ data.length := by
  induction data with
  | nil => simp [seekIdx]
  | cons e t ih =>
    by_cases h : k ≤ e.1
    · simp [seekIdx, h]
    · simp only [seekIdx, if_neg h, List.length_cons]
      omega

theorem storageSeekIdx_le_length (data : List ((Nat × Nat) × Nat)) (p : Nat × Nat) :
    storageSeekIdx data p ≤ data.length := by
  induction data with
  | nil => simp [storageSeekIdx]
  | cons e t ih =>
    cases hlex : lexLe p e.1 with
    | true => simp [storageSeekIdx, hlex]
    | false =>
      simp only [storageSeekIdx, hlex, Bool.false_eq_true, if_false, List.length_cons]
      omega

/-- In a strictly key-sorted data source, the seek index of a key present at
position `i` is exactly `i`. -/
theorem seekIdx_of_getElem (data : List (Nat × Nat)) (k v : Nat) (i : Nat)
    (hd : StrictKeys data) (h : data[i]? = some (k, v)) :
    seekIdx data k = i := by
  induction data generalizing i with
  | nil => simp at h
  | cons e t ih =>
    cases i with
    | zero =>
      simp only [List.getElem?_cons_zero, Option.some.injEq] at h
      subst h
      simp [seekIdx]
    | succ j =>
      simp only [List.getElem?_cons_succ] at h
      have hmem : (k, v) ∈ t := by
        obtain ⟨hlt, heq⟩ := List.getElem?_eq_some.mp h
        exact heq ▸ List.getElem_mem hlt
      have hek : e.1 < k := by
        have := (List.pairwise_cons.mp hd).1 (k, v) hmem
        simpa using this
      have ht : StrictKeys t := (List.pairwise_cons.mp hd).2
      simp only [seekIdx, if_neg (by omega : ¬ k ≤ e.1)]
      rw [ih j ht h]

/-! ## Real account cursor lemmas -/

theorem realA_seek_eq (c : RealAccountCursor) (k : Nat) :
    RealAccountCursor.seek c k =
      (c.data[seekIdx c.data k]?,
        { c with idx := seekIdx c.data k, seeks := c.seeks + 1 }) := rfl

theorem realA_next_eq (c : RealAccountCursor) :
    RealAccountCursor.next c =
      (c.data[c.idx + 1]?,
        { c with idx := if c.data.length ≤ c.idx then c.idx else c.idx + 1,
                 nexts := c.nexts + 1 }) := by
  unfold RealAccountCursor.next
  by_cases h : c.data.length ≤ c.idx
  · rw [if_pos h, if_pos h, List.getElem?_eq_none (by omega)]
  · rw [if_neg h, if_neg h]

theorem specNth_none_iff (data : List (Nat × Nat)) (k i : Nat) :
    specNth data k i = none ↔ availA data k ≤ i := by
  unfold specNth availA
  rw [List.getElem?_eq_none_iff]
  omega

/-- A cached value at index `i` pins down the data entry at `seekIdx + 1 + i`. -/
theorem entryConsistentA_getElem (data : List (Nat × Nat)) (k : Nat)
    (e : NextAccountCacheEntry) (he : entryConsistentA data k e) (i : Nat)
    (hi : i < e.values.length) :
    data[seekIdx data k + 1 + i]? = e.values[i]? := (he.1 i hi).symm

/-! ## Account cache order and consistency preservation -/

theorem cacheLeA_refl (c : AccountCursorCache) : cacheLeA c c := by
  refine ⟨fun k v h => h, fun k e h => ⟨e, h, ⟨[], by simp⟩, ?_⟩⟩
  cases e.terminated_size <;> simp

theorem cacheLeA_trans {a b c : AccountCursorCache} (h1 : cacheLeA a b)
    (h2 : cacheLeA b c) : cacheLeA a c := by
  refine ⟨fun k v h => h2.1 k v (h1.1 k v h), fun k e h => ?_⟩
  obtain ⟨e', he', ⟨t, ht⟩, hterm⟩ := h1.2 k e h
  obtain ⟨e'', he'', ⟨t', ht'⟩, hterm'⟩ := h2.2 k e' he'
  refine ⟨e'', he'', ⟨t ++ t', by rw [ht', ht, List.append_assoc]⟩, ?_⟩
  rcases hterm with h | h
  · exact Or.inl h
  · rcases hterm' with h' | h'
    · exact Or.inl (h ▸ h')
    · exact Or.inr (h'.trans h)

/-- Committing `entry(key).or_default()` preserves the cache order. -/
theorem cacheLeA_orDefault (c : AccountCursorCache) (k : Nat) :
    cacheLeA c { c with next_cache := aput c.next_cache k ((alook c.next_cache k).getD ⟨none, []⟩) } := by
  cases h : alook c.next_cache k with
  | some e =>
    simp only [Option.getD_some]
    rw [aput_alook_eq _ _ _ h]
    exact cacheLeA_refl c
  | none =>
    refine ⟨fun q v hq => hq, fun q e hq => ?_⟩
    by_cases hqk : q = k
    · subst hqk; rw [hq] at h; cases h
    · refine ⟨e, ?_, ⟨[], by simp⟩, ?_⟩
      · rw [alook_aput_ne _ _ _ _ hqk]; exact hq
      · cases e.terminated_size <;> simp

/-- Committing `entry(key).or_default()` preserves cache consistency. -/
theorem consistentA_orDefault (data : List (Nat × Nat)) (c : AccountCursorCache)
    (k : Nat) (hc : AccCacheConsistent data c) :
    AccCacheConsistent data { c with next_cache := aput c.next_cache k ((alook c.next_cache k).getD ⟨none, []⟩) } := by
  refine ⟨hc.1, fun q e hq => ?_⟩
  by_cases hqk : q = k
  · subst hqk
    rw [alook_aput_self] at hq
    cases h : alook c.next_cache q with
    | some e0 => rw [h] at hq; simp at hq; exact hq ▸ hc.2 q e0 h
    | none =>
      rw [h] at hq; simp at hq
      subst hq
      exact ⟨fun i hi => by simp at hi, fun n hn => by simp at hn⟩
  · rw [alook_aput_ne _ _ _ _ hqk] at hq
    exact hc.2 q e hq

/-- Monotonicity of position coverage under cache growth. -/
theorem posOKA_mono {c c' : AccountCursorCache} (h : cacheLeA c c')
    (pos : AccountCursorPos) (hp : posOKA c pos) : posOKA c' pos := by
  cases pos with
  | uninit => trivial
  | seek k => trivial
  | next k i =>
    simp only [posOKA] at hp ⊢
    cases hl : alook c.next_cache k with
    | none =>
      rw [hl] at hp
      simp only [Option.getD_none] at hp
      rcases hp with hp | ⟨n, hn, _⟩
      · simp at hp
      · simp at hn
    | some e =>
      rw [hl] at hp
      simp only [Option.getD_some] at hp
      obtain ⟨e', he', ⟨t, ht⟩, hterm⟩ := h.2 k e hl
      rw [he']
      simp only [Option.getD_some]
      rcases hp with hp | ⟨n, hn, hni⟩
      · exact Or.inl (by rw [ht]; simp; omega)
      · rcases hterm with hnone | hsame
        · rw [hn] at hnone; cases hnone
        · exact Or.inr ⟨n, by rw [hsame, hn], hni⟩

/-! ## Account decorator step lemmas -/

theorem Aseek_step (data : List (Nat × Nat)) (c : AccountCursorCache)
    (s : CachedHashedAccountCursor) (k : Nat)
    (hc : AccCacheConsistent data c) (hs : cursorSoundA data s) :
    ∃ s' c', CachedHashedAccountCursor.seek s c k = (specSeek data k, s', c') ∧
      AccCacheConsistent data c' ∧ cursorSoundA data s' ∧ cacheLeA c c' ∧
      s'.position = AccountCursorPos.seek k := by
  unfold CachedHashedAccountCursor.seek
  cases hl : alook c.seek_cache k with
  | some val =>
    have hval : val = specSeek data k := hc.1 k val hl
    subst hval
    exact ⟨_, _, rfl, hc, ⟨hs.1, hs.2⟩, cacheLeA_refl c, rfl⟩
  | none =>
    simp only [realA_seek_eq]
    rw [hs.1]
    refine ⟨_, _, rfl, ⟨?_, hc.2⟩, ⟨rfl, fun k' h => h⟩, ⟨?_, fun q e h => ?_⟩, rfl⟩
    · intro q v hq
      by_cases hqk : q = k
      · subst hqk
        rw [alook_aput_self] at hq
        simp only [Option.some.injEq] at hq
        exact hq ▸ rfl
      · rw [alook_aput_ne _ _ _ _ hqk] at hq
        exact hc.1 q v hq
    · intro q v hq
      by_cases hqk : q = k
      · subst hqk; rw [hq] at hl; cases hl
      · rw [alook_aput_ne _ _ _ _ hqk]; exact hq
    · exact ⟨e, h, ⟨[], by simp⟩, by cases e.terminated_size <;> simp⟩

theorem AnextTail_step (data : List (Nat × Nat)) (c : AccountCursorCache)
    (s : CachedHashedAccountCursor) (k i : Nat) (e : NextAccountCacheEntry)
    (hc : AccCacheConsistent data c)
    (halook : alook c.next_cache k = some e)
    (he : entryConsistentA data k e)
    (hlen : e.values.length = i) (hterm : e.terminated_size = none)
    (hdata : s.cursor.data = data) (hidx : s.cursor.idx = seekIdx data k + i) :
    ∃ s' c', CachedHashedAccountCursor.nextTail s c k e = (specNth data k i, s', c') ∧
      AccCacheConsistent data c' ∧ cursorSoundA data s' ∧ cacheLeA c c' ∧
      posOKA c' (.next k i) ∧ s'.position = s.position := by
  unfold CachedHashedAccountCursor.nextTail
  rw [realA_next_eq, hdata, hidx]
  have hcomm : seekIdx data k + i + 1 = seekIdx data k + 1 + i := by omega
  rw [hcomm]
  cases hnv : data[seekIdx data k + 1 + i]? with
  | some v =>
    have hspec : specNth data k i = some v := hnv
    have hlt : seekIdx data k + 1 + i < data.length :=
      (List.getElem?_eq_some.mp hnv).1
    rw [if_neg (by omega : ¬ data.length ≤ seekIdx data k + i)]
    rw [hspec]
    refine ⟨_, _, rfl, ⟨hc.1, ?_⟩, ⟨rfl, ?_⟩, ⟨fun q w hq => hq, ?_⟩, ?_, rfl⟩
    · intro q e2 hq
      by_cases hqk : q = k
      · subst hqk
        rw [alook_aput_self] at hq
        simp only [Option.some.injEq] at hq
        subst hq
        refine ⟨fun j hj => ?_, fun n hn => by rw [hterm] at hn; cases hn⟩
        simp only [List.length_append, List.length_cons, List.length_nil] at hj
        rw [getElem?_snoc]
        by_cases hji : j < e.values.length
        · rw [if_pos hji]; exact he.1 j hji
        · have hje : j = e.values.length := by omega
          rw [if_neg hji, if_pos hje, hje, hlen]
          exact hspec.symm
      · rw [alook_aput_ne _ _ _ _ hqk] at hq
        exact hc.2 q e2 hq
    · intro k' hk'
      have hk2 : Option.map Prod.fst (some v) = some k' := hk'
      show Option.map Prod.fst data[seekIdx data k + 1 + i]? = some k'
      rw [hnv]
      exact hk2
    · intro q e2 hq
      by_cases hqk : q = k
      · subst hqk
        rw [halook] at hq
        simp only [Option.some.injEq] at hq
        subst hq
        exact ⟨_, alook_aput_self _ _ _, ⟨[v], rfl⟩, Or.inl hterm⟩
      · exact ⟨e2, by rw [alook_aput_ne _ _ _ _ hqk]; exact hq, ⟨[], by simp⟩,
          by cases e2.terminated_size <;> simp⟩
    · simp only [posOKA]
      rw [alook_aput_self]
      simp only [Option.getD_some]
      left
      simp only [List.length_append, List.length_cons, List.length_nil]
      omega
  | none =>
    have hspec : specNth data k i = none := hnv
    have hge : data.length ≤ seekIdx data k + 1 + i :=
      List.getElem?_eq_none_iff.mp hnv
    have havail : availA data k = i := by
      rcases Nat.eq_zero_or_pos i with hi0 | hipos
      · unfold availA; omega
      · have hprev : e.values[i-1]? = specNth data k (i-1) := he.1 (i-1) (by omega)
        have hsome : ∃ w, e.values[i-1]? = some w :=
          ⟨_, List.getElem?_eq_getElem (by omega)⟩
        obtain ⟨w, hw⟩ := hsome
        rw [hw] at hprev
        have := (List.getElem?_eq_some.mp hprev.symm).1
        unfold availA
        omega
    rw [hspec]
    refine ⟨_, _, rfl, ⟨hc.1, ?_⟩, ⟨rfl, fun k' hk' => by simp at hk'⟩,
      ⟨fun q w hq => hq, ?_⟩, ?_, rfl⟩
    · intro q e2 hq
      by_cases hqk : q = k
      · subst hqk
        rw [alook_aput_self] at hq
        simp only [Option.some.injEq] at hq
        subst hq
        exact ⟨fun j hj => he.1 j hj, fun n hn => by
          simp only [Option.some.injEq] at hn
          subst hn
          exact ⟨by rw [hlen, havail], rfl⟩⟩
      · rw [alook_aput_ne _ _ _ _ hqk] at hq
        exact hc.2 q e2 hq
    · intro q e2 hq
      by_cases hqk : q = k
      · subst hqk
        rw [halook] at hq
        simp only [Option.some.injEq] at hq
        subst hq
        exact ⟨_, alook_aput_self _ _ _, ⟨[], by simp⟩, Or.inl hterm⟩
      · exact ⟨e2, by rw [alook_aput_ne _ _ _ _ hqk]; exact hq, ⟨[], by simp⟩,
          by cases e2.terminated_size <;> simp⟩
    · simp only [posOKA]
      rw [alook_aput_self]
      simp only [Option.getD_some]
      right
      exact ⟨e.values.length, rfl, by omega⟩

theorem AnextMiss_step (data : List (Nat × Nat)) (c : AccountCursorCache)
    (s : CachedHashedAccountCursor) (k i : Nat) (e : NextAccountCacheEntry)
    (hd : StrictKeys data)
    (hc : AccCacheConsistent data c) (hs : cursorSoundA data s)
    (halook : alook c.next_cache k = some e)
    (he : entryConsistentA data k e)
    (hlen : e.values.length = i) (hterm : e.terminated_size = none) :
    ∃ s' c', CachedHashedAccountCursor.nextMiss s c k i e = (specNth data k i, s', c') ∧
      AccCacheConsistent data c' ∧ cursorSoundA data s' ∧ cacheLeA c c' ∧
      posOKA c' (.next k i) ∧ s'.position = s.position := by
  unfold CachedHashedAccountCursor.nextMiss
  cases hgl : e.values.getLast? with
  | none =>
    have hnil : e.values = [] := by
      cases hv : e.values with
      | nil => rfl
      | cons a t => rw [hv] at hgl; simp [List.getLast?_concat] at hgl
    have hi0 : i = 0 := by rw [← hlen, hnil]; rfl
    subst hi0
    rw [show lastKeyA e k = k by unfold lastKeyA; rw [hgl]]
    by_cases hu : s.underlying_cursor_last_key = some k
    · rw [if_pos hu]
      have hsk := hs.2 k hu
      cases hq : data[s.cursor.idx]? with
      | none => rw [hq] at hsk; simp at hsk
      | some a =>
        rw [hq] at hsk
        simp only [Option.map_some', Option.some.injEq] at hsk
        obtain ⟨a1, a2⟩ := a
        simp only at hsk
        rw [hsk] at hq
        have hidx : seekIdx data k = s.cursor.idx :=
          seekIdx_of_getElem data k a2 s.cursor.idx hd hq
        exact AnextTail_step data c s k 0 e hc halook he hlen hterm hs.1 (by omega)
    · rw [if_neg hu]
      rw [realA_seek_eq]
      refine AnextTail_step data c _ k 0 e hc halook he hlen hterm ?_ ?_
      · exact hs.1
      · simp only
        rw [hs.1]
        omega
  | some lv =>
    obtain ⟨lk, lw⟩ := lv
    have hpos : 1 ≤ e.values.length := by
      cases hv : e.values with
      | nil => rw [hv] at hgl; simp at hgl
      | cons a t => simp
    have hlast : e.values[e.values.length - 1]? = some (lk, lw) := by
      rw [← List.getLast?_eq_getElem?]; exact hgl
    have hlv : data[seekIdx data k + i]? = some (lk, lw) := by
      have h1 := he.1 (e.values.length - 1) (by omega)
      rw [hlast] at h1
      have h2 : seekIdx data k + 1 + (e.values.length - 1) = seekIdx data k + i := by
        omega
      rw [← h2]
      exact h1.symm
    have hsi : seekIdx data lk = seekIdx data k + i :=
      seekIdx_of_getElem data lk lw _ hd hlv
    rw [show lastKeyA e k = lk by unfold lastKeyA; rw [hgl]]
    by_cases hu : s.underlying_cursor_last_key = some lk
    · rw [if_pos hu]
      have hsk := hs.2 lk hu
      cases hq : data[s.cursor.idx]? with
      | none => rw [hq] at hsk; simp at hsk
      | some a =>
        rw [hq] at hsk
        simp only [Option.map_some', Option.some.injEq] at hsk
        obtain ⟨a1, a2⟩ := a
        simp only at hsk
        rw [hsk] at hq
        have hidx : seekIdx data lk = s.cursor.idx :=
          seekIdx_of_getElem data lk a2 s.cursor.idx hd hq
        exact AnextTail_step data c s k i e hc halook he hlen hterm hs.1 (by omega)
    · rw [if_neg hu]
      rw [realA_seek_eq]
      refine AnextTail_step data c _ k i e hc halook he hlen hterm ?_ ?_
      · exact hs.1
      · simp only
        rw [hs.1]
        omega

theorem Anext_reduce (s : CachedHashedAccountCursor) (cache : AccountCursorCache)
    (k i : Nat) (hni : nextIndexA s.position = some (k, i)) :
    CachedHashedAccountCursor.next s cache =
      .ok (CachedHashedAccountCursor.nextStep { s with position := .next k i }
        { cache with next_cache := aput cache.next_cache k ((alook cache.next_cache k).getD ⟨none, []⟩) }
        k i ((alook cache.next_cache k).getD ⟨none, []⟩)
        ((alook cache.next_cache k).getD ⟨none, []⟩).values[i]?
        ((alook cache.next_cache k).getD ⟨none, []⟩).terminated_size) := by
  unfold CachedHashedAccountCursor.next
  rw [hni]

theorem Anext_step (data : List (Nat × Nat)) (c : AccountCursorCache)
    (s : CachedHashedAccountCursor) (k i : Nat)
    (hd : StrictKeys data) (hc : AccCacheConsistent data c)
    (hs : cursorSoundA data s) (hp : posOKA c s.position)
    (hni : nextIndexA s.position = some (k, i)) :
    ∃ s' c', CachedHashedAccountCursor.next s c = .ok (specNth data k i, s', c') ∧
      AccCacheConsistent data c' ∧ cursorSoundA data s' ∧ cacheLeA c c' ∧
      posOKA c' (.next k i) ∧ s'.position = .next k i := by
  have hcl1 : cacheLeA c { c with next_cache := aput c.next_cache k ((alook c.next_cache k).getD ⟨none, []⟩) } :=
    cacheLeA_orDefault c k
  have hcc1 : AccCacheConsistent data { c with next_cache := aput c.next_cache k ((alook c.next_cache k).getD ⟨none, []⟩) } :=
    consistentA_orDefault data c k hc
  have halook1 : alook (aput c.next_cache k ((alook c.next_cache k).getD ⟨none, []⟩)) k
      = some ((alook c.next_cache k).getD ⟨none, []⟩) := alook_aput_self _ _ _
  have hec : entryConsistentA data k ((alook c.next_cache k).getD ⟨none, []⟩) := by
    cases h : alook c.next_cache k with
    | some e0 => exact hc.2 k e0 h
    | none =>
      exact ⟨fun j hj => by simp at hj, fun n hn => by simp at hn⟩
  rw [Anext_reduce s c k i hni]
  cases hv : ((alook c.next_cache k).getD ⟨none, []⟩).values[i]? with
  | some val =>
    have hlt : i < ((alook c.next_cache k).getD ⟨none, []⟩).values.length :=
      (List.getElem?_eq_some.mp hv).1
    have hspec : specNth data k i = some val := by
      rw [← hec.1 i hlt]; exact hv
    rw [hspec]
    refine ⟨_, _, rfl, hcc1, ⟨hs.1, hs.2⟩, hcl1, ?_, rfl⟩
    simp only [posOKA]
    rw [halook1]
    simp only [Option.getD_some]
    exact Or.inl hlt
  | none =>
    have hlei : ((alook c.next_cache k).getD ⟨none, []⟩).values.length ≤ i :=
      List.getElem?_eq_none_iff.mp hv
    cases ht : ((alook c.next_cache k).getD ⟨none, []⟩).terminated_size with
    | some size =>
      have hsz := hec.2 size ht
      by_cases hle : size ≤ i
      · simp only [CachedHashedAccountCursor.nextStep]
        rw [if_pos hle]
        have hspec : specNth data k i = none := by
          rw [specNth_none_iff]; omega
        rw [hspec]
        refine ⟨_, _, rfl, hcc1, ⟨hs.1, hs.2⟩, hcl1, ?_, rfl⟩
        simp only [posOKA]
        rw [halook1]
        simp only [Option.getD_some]
        exact Or.inr ⟨size, ht, hle⟩
      · exact absurd (by omega : size ≤ i) hle
    | none =>
      have hgei : i ≤ ((alook c.next_cache k).getD ⟨none, []⟩).values.length := by
        cases hpos : s.position with
        | uninit => rw [hpos] at hni; cases hni
        | seek k0 =>
          rw [hpos] at hni
          simp only [nextIndexA, Option.some.injEq, Prod.mk.injEq] at hni
          omega
        | next k0 j =>
          rw [hpos] at hni
          simp only [nextIndexA, Option.some.injEq, Prod.mk.injEq] at hni
          obtain ⟨hk0, hij⟩ := hni
          subst hk0
          rw [hpos] at hp
          simp only [posOKA] at hp
          rcases hp with hp | ⟨n, hn, _⟩
          · omega
          · rw [ht] at hn; cases hn
      obtain ⟨s', c', heq, h1, h2, h3, h4, h5⟩ :=
        AnextMiss_step data _ { s with position := AccountCursorPos.next k i } k i
          ((alook c.next_cache k).getD ⟨none, []⟩) hd hcc1 ⟨hs.1, hs.2⟩ halook1 hec
          (by omega) ht
      refine ⟨s', c', ?_, h1, h2, cacheLeA_trans hcl1 h3, h4, h5⟩
      simp only [CachedHashedAccountCursor.nextStep]
      rw [heq]

/-! ## Fresh-cursor link lemmas -/

theorem realA_seek_link (data : List (Nat × Nat)) (f : RealAccountCursor)
    (k : Nat) (hf : f.data = data) :
    (RealAccountCursor.seek f k).1 = specSeek data k ∧
      linkPosA data (.seek k) (RealAccountCursor.seek f k).2 := by
  rw [realA_seek_eq, hf]
  exact ⟨rfl, rfl, rfl⟩

theorem realA_next_link (data : List (Nat × Nat)) (pos : AccountCursorPos)
    (f : RealAccountCursor) (k i : Nat)
    (hl : linkPosA data pos f) (hni : nextIndexA pos = some (k, i)) :
    (RealAccountCursor.next f).1 = specNth data k i ∧
      linkPosA data (.next k i) (RealAccountCursor.next f).2 := by
  have hfd : f.data = data := hl.1
  rw [realA_next_eq, hfd]
  cases pos with
  | uninit => cases hni
  | seek k0 =>
    simp only [nextIndexA, Option.some.injEq, Prod.mk.injEq] at hni
    obtain ⟨hk, hi⟩ := hni
    subst hi
    subst hk
    have hsile := seekIdx_le_length data k0
    have hidx : f.idx = seekIdx data k0 := hl.2
    rw [hidx]
    constructor
    · show data[seekIdx data k0 + 1]? = data[seekIdx data k0 + 1 + 0]?
      rfl
    · refine ⟨rfl, ?_⟩
      show (if data.length ≤ seekIdx data k0 then seekIdx data k0 else seekIdx data k0 + 1)
        = min data.length (seekIdx data k0 + 1 + 0)
      by_cases hcase : data.length ≤ seekIdx data k0
      · rw [if_pos hcase]; omega
      · rw [if_neg hcase]; omega
  | next k0 j =>
    simp only [nextIndexA, Option.some.injEq, Prod.mk.injEq] at hni
    obtain ⟨hk, hi⟩ := hni
    subst hi
    subst hk
    have hsile := seekIdx_le_length data k0
    have hidx : f.idx = min data.length (seekIdx data k0 + 1 + j) := hl.2
    rw [hidx]
    by_cases hcase : seekIdx data k0 + 1 + j < data.length
    · have hmin : min data.length (seekIdx data k0 + 1 + j) = seekIdx data k0 + 1 + j := by
        omega
      rw [hmin]
      constructor
      · show data[seekIdx data k0 + 1 + j + 1]? = specNth data k0 (j + 1)
        unfold specNth
        have : seekIdx data k0 + 1 + j + 1 = seekIdx data k0 + 1 + (j + 1) := by omega
        rw [this]
      · refine ⟨rfl, ?_⟩
        show (if data.length ≤ seekIdx data k0 + 1 + j then seekIdx data k0 + 1 + j
              else seekIdx data k0 + 1 + j + 1)
          = min data.length (seekIdx data k0 + 1 + (j + 1))
        rw [if_neg (by omega)]
        omega
    · have hmin : min data.length (seekIdx data k0 + 1 + j) = data.length := by omega
      rw [hmin]
      rw [if_pos (Nat.le_refl _)]
      constructor
      · show data[data.length + 1]? = specNth data k0 (j + 1)
        have hnone : specNth data k0 (j + 1) = none := by
          rw [specNth_none_iff]
          unfold availA
          omega
        rw [hnone, List.getElem?_eq_none (by omega)]
      · refine ⟨rfl, ?_⟩
        show data.length = min data.length (seekIdx data k0 + 1 + (j + 1))
        omega

/-- Core refinement: from any consistent shared cache, a decorator instance
with sound tracking and covered position returns exactly the results of the
uncached real cursor driven through the same calls. -/
theorem runA_refines (data : List (Nat × Nat)) (hd : StrictKeys data)
    (ops : List AOp) :
    ∀ (s : CachedHashedAccountCursor) (c : AccountCursorCache)
      (f : RealAccountCursor),
      AccCacheConsistent data c → cursorSoundA data s → posOKA c s.position →
      linkPosA data s.position f →
      (s.position = .uninit → validA ops = true) →
      ∃ s' c', runA s c ops = .ok ((runRealA f ops).1, s', c') := by
  induction ops with
  | nil =>
    intro s c f hc hs hp hl hv
    exact ⟨s, c, rfl⟩
  | cons op rest ih =>
    intro s c f hc hs hp hl hv
    cases op with
    | seek k =>
      obtain ⟨s1, c1, heq, hc1, hs1, hle1, hpos1⟩ := Aseek_step data c s k hc hs
      obtain ⟨hr1, hl1⟩ := realA_seek_link data f k hl.1
      obtain ⟨s', c', hrun⟩ := ih s1 c1 (RealAccountCursor.seek f k).2 hc1 hs1
        (by rw [hpos1]; trivial) (by rw [hpos1]; exact hl1)
        (by rw [hpos1]; intro hcon; cases hcon)
      have h1 : (s.seek c k).1 = specSeek data k := by rw [heq]
      have h2 : (s.seek c k).2.1 = s1 := by rw [heq]
      have h3 : (s.seek c k).2.2 = c1 := by rw [heq]
      refine ⟨s', c', ?_⟩
      simp only [runA, runRealA]
      rw [h2, h3, hrun, h1, hr1]
    | next =>
      cases hpos : s.position with
      | uninit =>
        have := hv hpos
        simp [validA] at this
      | seek k0 =>
        obtain ⟨s1, c1, heq, hc1, hs1, hle1, hp1, hpos1⟩ :=
          Anext_step data c s k0 0 hd hc hs hp (by rw [hpos]; rfl)
        obtain ⟨hr1, hl1⟩ := realA_next_link data s.position f k0 0 hl
          (by rw [hpos]; rfl)
        obtain ⟨s', c', hrun⟩ := ih s1 c1 (RealAccountCursor.next f).2 hc1 hs1
          (by rw [hpos1]; exact hp1) (by rw [hpos1]; exact hl1)
          (by rw [hpos1]; intro hcon; cases hcon)
        refine ⟨s', c', ?_⟩
        simp only [runA, runRealA]
        rw [heq]
        simp only [hrun]
        rw [hr1]
      | next k0 j =>
        obtain ⟨s1, c1, heq, hc1, hs1, hle1, hp1, hpos1⟩ :=
          Anext_step data c s k0 (j + 1) hd hc hs hp (by rw [hpos]; rfl)
        obtain ⟨hr1, hl1⟩ := realA_next_link data s.position f k0 (j + 1) hl
          (by rw [hpos]; rfl)
        obtain ⟨s', c', hrun⟩ := ih s1 c1 (RealAccountCursor.next f).2 hc1 hs1
          (by rw [hpos1]; exact hp1) (by rw [hpos1]; exact hl1)
          (by rw [hpos1]; intro hcon; cases hcon)
        refine ⟨s', c', ?_⟩
        simp only [runA, runRealA]
        rw [heq]
        simp only [hrun]
        rw [hr1]

/-! ## Multi-instance invariant preservation -/

theorem Anext_panic (s : CachedHashedAccountCursor) (c : AccountCursorCache)
    (hni : nextIndexA s.position = none) :
    CachedHashedAccountCursor.next s c = .panic := by
  unfold CachedHashedAccountCursor.next
  rw [hni]

theorem amStep_inv (data : List (Nat × Nat)) (st : AMState) (op : AMOp)
    (hd : StrictKeys data) (hinv : AMInv data st) :
    AMInv data (amStep data st op) := by
  cases op with
  | spawn =>
    refine ⟨hinv.1, fun s hmem => ?_⟩
    rcases List.mem_append.mp hmem with hold | hnew
    · exact hinv.2 s hold
    · have hs : s = CachedHashedAccountCursor.new (freshRealAccountCursor data) := by
        simpa using hnew
      subst hs
      exact ⟨⟨rfl, fun k' h => by cases h⟩, trivial⟩
  | act i op =>
    cases hins : st.insts[i]? with
    | none => simp only [amStep, hins]; exact hinv
    | some s =>
      have hmem : s ∈ st.insts := by
        obtain ⟨hlt, heq⟩ := List.getElem?_eq_some.mp hins
        exact heq ▸ List.getElem_mem hlt
      obtain ⟨hsound, hpok⟩ := hinv.2 s hmem
      cases op with
      | seek k =>
        obtain ⟨s1, c1, heq, hc1, hs1, hle1, hpos1⟩ :=
          Aseek_step data st.cache s k hinv.1 hsound
        have h2 : (s.seek st.cache k).2.1 = s1 := by rw [heq]
        have h3 : (s.seek st.cache k).2.2 = c1 := by rw [heq]
        simp only [amStep, hins, h2, h3]
        refine ⟨hc1, fun x hx => ?_⟩
        rcases List.mem_or_eq_of_mem_set hx with hold | hnew
        · obtain ⟨hxs, hxp⟩ := hinv.2 x hold
          exact ⟨hxs, posOKA_mono hle1 x.position hxp⟩
        · subst hnew
          rw [hpos1]
          exact ⟨hs1, trivial⟩
      | next =>
        cases hni : nextIndexA s.position with
        | none =>
          simp only [amStep, hins, Anext_panic s st.cache hni]
          exact hinv
        | some ki =>
          obtain ⟨k, i⟩ := ki
          obtain ⟨s1, c1, heq, hc1, hs1, hle1, hp1, hpos1⟩ :=
            Anext_step data st.cache s k i hd hinv.1 hsound hpok hni
          simp only [amStep, hins, heq]
          refine ⟨hc1, fun x hx => ?_⟩
          rcases List.mem_or_eq_of_mem_set hx with hold | hnew
          · obtain ⟨hxs, hxp⟩ := hinv.2 x hold
            exact ⟨hxs, posOKA_mono hle1 x.position hxp⟩
          · subst hnew
            rw [hpos1]
            exact ⟨hs1, hp1⟩

theorem amRun_inv (data : List (Nat × Nat)) (hd : StrictKeys data)
    (trace : List AMOp) :
    ∀ st : AMState, AMInv data st → AMInv data (amRun data st trace) := by
  induction trace with
  | nil => intro st h; exact h
  | cons op rest ih =>
    intro st h
    exact ih (amStep data st op) (amStep_inv data st op hd h)

theorem amInit_inv (data : List (Nat × Nat)) : AMInv data amInit := by
  refine ⟨⟨fun k v h => ?_, fun k e h => ?_⟩, fun s hmem => ?_⟩
  · simp [alook] at h
  · simp [alook] at h
  · simp [amInit] at hmem

/-! ## Claim C1 -/

/-- C1: for every immutable key-ordered account data source and every finite
call sequence of `seek`/`next` (each `next` preceded by some seek on the
instance), a `CachedHashedAccountCursor` returns exactly the same sequence of
Ok results as a fresh uncached cursor over the same data, regardless of the
prior contents of the shared cache, provided that cache was populated only by
decorators (any number of instances, any interleaving) over the same data. -/
theorem C1_cached_account_cursor_transparent (data : List (Nat × Nat))
    (trace : List AMOp) (ops : List AOp)
    (hd : StrictKeys data) (hv : validA ops = true) :
    ∃ s' c',
      runA (CachedHashedAccountCursor.new (freshRealAccountCursor data))
        (amRun data amInit trace).cache ops
      = .ok ((runRealA (freshRealAccountCursor data) ops).1, s', c') := by
  have hinv := amRun_inv data hd trace amInit (amInit_inv data)
  exact runA_refines data hd ops _ _ _ hinv.1
    ⟨rfl, fun k' h => by cases h⟩ trivial ⟨rfl, rfl⟩ (fun _ => hv)

/-- Witness for C1 at a concrete data source, prior trace and call sequence. -/
theorem C1_witness :
    StrictKeys [(1, 10), (2, 20), (5, 50)] ∧
    validA [AOp.seek 2, AOp.next, AOp.next, AOp.seek 1, AOp.next] = true ∧
    ∃ s' c',
      runA (CachedHashedAccountCursor.new (freshRealAccountCursor [(1, 10), (2, 20), (5, 50)]))
        (amRun [(1, 10), (2, 20), (5, 50)] amInit
          [AMOp.spawn, AMOp.act 0 (AOp.seek 1), AMOp.act 0 AOp.next]).cache
        [AOp.seek 2, AOp.next, AOp.next, AOp.seek 1, AOp.next]
      = .ok ((runRealA (freshRealAccountCursor [(1, 10), (2, 20), (5, 50)])
          [AOp.seek 2, AOp.next, AOp.next, AOp.seek 1, AOp.next]).1, s', c') :=
  ⟨by decide, by decide,
    C1_cached_account_cursor_transparent [(1, 10), (2, 20), (5, 50)]
      [AMOp.spawn, AMOp.act 0 (AOp.seek 1), AMOp.act 0 AOp.next]
      [AOp.seek 2, AOp.next, AOp.next, AOp.seek 1, AOp.next]
      (by decide) (by decide)⟩

/-! ## Claim C3 -/

/-- C3: shared-cache invariant for the account sequence table.  After any
sequence of seek/next operations performed by any number of
`CachedHashedAccountCursor` instances sharing one cache over the same
immutable data, `next_cache[k].values[i]` is the `i`-th entry strictly after
the entry a fresh `seek(k)` returns, for every populated index `i`. -/
theorem C3_account_sequence_table_invariant (data : List (Nat × Nat))
    (trace : List AMOp) (hd : StrictKeys data) :
    ∀ k e, alook (amRun data amInit trace).cache.next_cache k = some e →
      ∀ i, i < e.values.length → e.values[i]? = specNth data k i := by
  have hinv := amRun_inv data hd trace amInit (amInit_inv data)
  exact fun k e h i hi => (hinv.1.2 k e h).1 i hi

/-- Witness for C3 on a concrete multi-instance trace. -/
theorem C3_witness :
    StrictKeys [(1, 10), (2, 20), (5, 50)] ∧
    (∀ k e, alook (amRun [(1, 10), (2, 20), (5, 50)] amInit
        [AMOp.spawn, AMOp.spawn, AMOp.act 0 (AOp.seek 1), AMOp.act 0 AOp.next,
         AMOp.act 1 (AOp.seek 2), AMOp.act 1 AOp.next,
         AMOp.act 0 AOp.next]).cache.next_cache k = some e →
      ∀ i, i < e.values.length →
        e.values[i]? = specNth [(1, 10), (2, 20), (5, 50)] k i) :=
  ⟨by decide,
    C3_account_sequence_table_invariant [(1, 10), (2, 20), (5, 50)]
      [AMOp.spawn, AMOp.spawn, AMOp.act 0 (AOp.seek 1), AMOp.act 0 AOp.next,
       AMOp.act 1 (AOp.seek 2), AMOp.act 1 AOp.next,
       AMOp.act 0 AOp.next] (by decide)⟩

/-! ## Position-preservation lemmas (panic reachability) -/

theorem Aseek_pos (s : CachedHashedAccountCursor) (c : AccountCursorCache)
    (k : Nat) : (s.seek c k).2.1.position = .seek k := by
  unfold CachedHashedAccountCursor.seek
  cases alook c.seek_cache k <;> rfl

theorem AnextTail_pos (s : CachedHashedAccountCursor) (c : AccountCursorCache)
    (k : Nat) (e : NextAccountCacheEntry) :
    (CachedHashedAccountCursor.nextTail s c k e).2.1.position = s.position := by
  unfold CachedHashedAccountCursor.nextTail
  rw [realA_next_eq]
  cases h : s.cursor.data[s.cursor.idx + 1]? <;> rfl

theorem AnextMiss_pos (s : CachedHashedAccountCursor) (c : AccountCursorCache)
    (k i : Nat) (e : NextAccountCacheEntry) :
    (CachedHashedAccountCursor.nextMiss s c k i e).2.1.position = s.position := by
  unfold CachedHashedAccountCursor.nextMiss
  by_cases h : s.underlying_cursor_last_key = some (lastKeyA e k)
  · rw [if_pos h]; exact AnextTail_pos s c k e
  · rw [if_neg h]; exact AnextTail_pos _ c k e

theorem AnextStep_pos (s : CachedHashedAccountCursor) (c : AccountCursorCache)
    (k i : Nat) (e : NextAccountCacheEntry) (o : Option (Nat × Nat))
    (t : Option Nat) :
    (CachedHashedAccountCursor.nextStep s c k i e o t).2.1.position = s.position := by
  cases o with
  | some val => rfl
  | none =>
    cases t with
    | some size =>
      simp only [CachedHashedAccountCursor.nextStep]
      by_cases h : size ≤ i
      · rw [if_pos h]
      · rw [if_neg h]; exact AnextMiss_pos s c k i e
    | none => exact AnextMiss_pos s c k i e

theorem Anext_ne_panic (s : CachedHashedAccountCursor) (c : AccountCursorCache)
    (hpos : s.position ≠ .uninit) : CachedHashedAccountCursor.next s c ≠ .panic := by
  cases hp : s.position with
  | uninit => exact absurd hp hpos
  | seek k => rw [Anext_reduce s c k 0 (by rw [hp]; rfl)]; simp
  | next k j => rw [Anext_reduce s c k (j + 1) (by rw [hp]; rfl)]; simp

theorem Anext_pos_ne (s : CachedHashedAccountCursor) (c : AccountCursorCache)
    (r : Option (Nat × Nat)) (s' : CachedHashedAccountCursor)
    (c' : AccountCursorCache)
    (heq : CachedHashedAccountCursor.next s c = .ok (r, s', c')) :
    s'.position ≠ .uninit := by
  cases hni : nextIndexA s.position with
  | none => rw [Anext_panic s c hni] at heq; cases heq
  | some ki =>
    obtain ⟨k, i⟩ := ki
    rw [Anext_reduce s c k i hni] at heq
    have h2 := PResult.ok.inj heq
    have h3 := congrArg (fun x => x.2.1.position) h2
    simp only at h3
    rw [AnextStep_pos] at h3
    intro hcon
    rw [hcon] at h3
    cases h3

theorem runA_no_panic (ops : List AOp) :
    ∀ (s : CachedHashedAccountCursor) (c : AccountCursorCache),
      s.position ≠ .uninit → runA s c ops ≠ .panic := by
  induction ops with
  | nil => intro s c hpos h; cases h
  | cons op rest ih =>
    intro s c hpos
    cases op with
    | seek k =>
      simp only [runA]
      cases hrun : runA (s.seek c k).2.1 (s.seek c k).2.2 rest with
      | panic =>
        exact absurd hrun (ih _ _ (by rw [Aseek_pos]; simp))
      | ok v => simp
    | next =>
      cases hnx : CachedHashedAccountCursor.next s c with
      | panic => exact absurd hnx (Anext_ne_panic s c hpos)
      | ok v =>
        obtain ⟨r, s', c'⟩ := v
        simp only [runA, hnx]
        cases hrun : runA s' c' rest with
        | panic => exact absurd hrun (ih _ _ (Anext_pos_ne s c r s' c' hnx))
        | ok v2 => simp

/-! ## Real storage cursor lemmas and storage position lemmas -/

theorem realS_seek_eq (c : RealStorageCursor) (k sk : Nat) :
    RealStorageCursor.seek c k sk =
      (Option.map Prod.snd c.data[storageSeekIdx c.data (k, sk)]?,
        { c with idx := storageSeekIdx c.data (k, sk), seeks := c.seeks + 1 }) := rfl

theorem realS_next_eq (c : RealStorageCursor) :
    RealStorageCursor.next c =
      (Option.map Prod.snd c.data[c.idx + 1]?,
        { c with idx := if c.data.length ≤ c.idx then c.idx else c.idx + 1,
                 nexts := c.nexts + 1 }) := by
  unfold RealStorageCursor.next
  by_cases h : c.data.length ≤ c.idx
  · rw [if_pos h, if_pos h, List.getElem?_eq_none (by omega)]
    rfl
  · rw [if_neg h, if_neg h]

theorem Sseek_pos (s : CachedHashedStorageCursor) (c : HashedStorageCursorCache)
    (k sk : Nat) : (s.seek c k sk).2.1.position = .seek (k, sk) 0 := by
  unfold CachedHashedStorageCursor.seek
  cases ho : ((alook c.seek_cache (k, sk)).getD ⟨none, []⟩).values.head? with
  | some v => rfl
  | none =>
    simp only [CachedHashedStorageCursor.seekStep]
    by_cases ht : ((alook c.seek_cache (k, sk)).getD ⟨none, []⟩).terminated_size = some 0
    · rw [if_pos ht]
    · rw [if_neg ht]
      unfold CachedHashedStorageCursor.seekMiss
      cases hres : (RealStorageCursor.seek s.cursor k sk).1 <;> rfl

theorem storageNextLoop_pos (key : Nat × Nat) (fuel : Nat) :
    ∀ (s : CachedHashedStorageCursor) (entry : NextStorageCacheEntry)
      (ci : Nat), (storageNextLoop s key entry ci fuel).1.position = s.position := by
  induction fuel with
  | zero => intro s entry ci; rfl
  | succ fuel ih =>
    intro s entry ci
    simp only [storageNextLoop]
    cases hres : (RealStorageCursor.next s.cursor).1 with
    | some v => rw [ih]
    | none => rfl

theorem SnextFinish_pos (s : CachedHashedStorageCursor)
    (c : HashedStorageCursorCache) (key : Nat × Nat) (index : Nat)
    (entry : NextStorageCacheEntry) (ci : Nat) :
    (CachedHashedStorageCursor.nextFinish s c key index entry ci).2.1.position
      = s.position := by
  unfold CachedHashedStorageCursor.nextFinish
  by_cases h : (storageNextLoop s key entry ci (index - ci)).2.2
  · rw [if_pos h]
    exact storageNextLoop_pos key (index - ci) s entry ci
  · rw [if_neg h]
    exact storageNextLoop_pos key (index - ci) s entry ci

theorem SnextReseek_pos (s : CachedHashedStorageCursor)
    (c : HashedStorageCursorCache) (key : Nat × Nat) (index : Nat)
    (entry : NextStorageCacheEntry) :
    (CachedHashedStorageCursor.nextReseek s c key index entry).2.1.position
      = s.position := by
  unfold CachedHashedStorageCursor.nextReseek
  cases hres : (RealStorageCursor.seek s.cursor key.1 key.2).1 with
  | some v => rw [SnextFinish_pos]
  | none => rw [SnextFinish_pos]

theorem SnextMiss_pos (s : CachedHashedStorageCursor)
    (c : HashedStorageCursorCache) (key : Nat × Nat) (index : Nat)
    (entry : NextStorageCacheEntry) :
    (CachedHashedStorageCursor.nextMiss s c key index entry).2.1.position
      = s.position := by
  unfold CachedHashedStorageCursor.nextMiss
  cases hcp : s.cursor_pos with
  | uninit => rw [SnextReseek_pos]
  | seek ck j =>
    show ((if ck = key then s.nextFinish c key index entry j
           else s.nextReseek c key index entry)).2.1.position = s.position
    by_cases hck : ck = key
    · rw [if_pos hck, SnextFinish_pos]
    · rw [if_neg hck, SnextReseek_pos]

theorem SnextStep_pos (s : CachedHashedStorageCursor)
    (c : HashedStorageCursorCache) (key : Nat × Nat) (index : Nat)
    (entry : NextStorageCacheEntry) (o t : Option Nat) :
    (CachedHashedStorageCursor.nextStep s c key index entry o t).2.1.position
      = s.position := by
  cases o with
  | some val => rfl
  | none =>
    cases t with
    | some size =>
      simp only [CachedHashedStorageCursor.nextStep]
      by_cases h : size ≤ index
      · rw [if_pos h]
      · rw [if_neg h]; exact SnextMiss_pos s c key index entry
    | none => exact SnextMiss_pos s c key index entry

theorem Snext_panic (s : CachedHashedStorageCursor)
    (c : HashedStorageCursorCache) (hp : s.position = .uninit) :
    CachedHashedStorageCursor.next s c = .panic := by
  unfold CachedHashedStorageCursor.next
  rw [hp]

theorem Snext_reduce (s : CachedHashedStorageCursor)
    (c : HashedStorageCursorCache) (p : Nat × Nat) (j : Nat)
    (hp : s.position = .seek p j) :
    CachedHashedStorageCursor.next s c =
      .ok (CachedHashedStorageCursor.nextStep
        { s with position := .seek p (j + 1) }
        { c with seek_cache := aput c.seek_cache p ((alook c.seek_cache p).getD ⟨none, []⟩) }
        p (j + 1) ((alook c.seek_cache p).getD ⟨none, []⟩)
        ((alook c.seek_cache p).getD ⟨none, []⟩).values[j + 1]?
        ((alook c.seek_cache p).getD ⟨none, []⟩).terminated_size) := by
  unfold CachedHashedStorageCursor.next
  rw [hp]

theorem Snext_ne_panic (s : CachedHashedStorageCursor)
    (c : HashedStorageCursorCache) (hpos : s.position ≠ .uninit) :
    CachedHashedStorageCursor.next s c ≠ .panic := by
  cases hp : s.position with
  | uninit => exact absurd hp hpos
  | seek p j => rw [Snext_reduce s c p j hp]; simp

theorem Snext_pos_ne (s : CachedHashedStorageCursor)
    (c : HashedStorageCursorCache) (r : Option Nat)
    (s' : CachedHashedStorageCursor) (c' : HashedStorageCursorCache)
    (heq : CachedHashedStorageCursor.next s c = .ok (r, s', c')) :
    s'.position ≠ .uninit := by
  cases hp : s.position with
  | uninit => rw [Snext_panic s c hp] at heq; cases heq
  | seek p j =>
    rw [Snext_reduce s c p j hp] at heq
    have h2 := PResult.ok.inj heq
    have h3 := congrArg (fun x => x.2.1.position) h2
    simp only at h3
    rw [SnextStep_pos] at h3
    intro hcon
    rw [hcon] at h3
    cases h3

theorem runS_no_panic (ops : List SOp) :
    ∀ (s : CachedHashedStorageCursor) (c : HashedStorageCursorCache),
      s.position ≠ .uninit → runS s c ops ≠ .panic := by
  induction ops with
  | nil => intro s c hpos h; cases h
  | cons op rest ih =>
    intro s c hpos
    cases op with
    | seek k sk =>
      simp only [runS]
      cases hrun : runS (s.seek c k sk).2.1 (s.seek c k sk).2.2 rest with
      | panic =>
        exact absurd hrun (ih _ _ (by rw [Sseek_pos]; simp))
      | ok v => simp
    | next =>
      cases hnx : CachedHashedStorageCursor.next s c with
      | panic => exact absurd hnx (Snext_ne_panic s c hpos)
      | ok v =>
        obtain ⟨r, s', c'⟩ := v
        simp only [runS, hnx]
        cases hrun : runS s' c' rest with
        | panic => exact absurd hrun (ih _ _ (Snext_pos_ne s c r s' c' hnx))
        | ok v2 => simp

/-! ## Claim C10 -/

/-- C10: calling `next()` on a `CachedHashedAccountCursor` or
`CachedHashedStorageCursor` before any `seek` on that instance takes the
panic branch (`unreachable!("next called before seek")`), and once a seek has
been issued first, the panic branch is unreachable for every subsequent call
sequence. -/
theorem C10_next_before_seek_fatal :
    (∀ (s : CachedHashedAccountCursor) (c : AccountCursorCache),
      s.position = .uninit → CachedHashedAccountCursor.next s c = .panic) ∧
    (∀ (s : CachedHashedStorageCursor) (c : HashedStorageCursorCache),
      s.position = .uninit → CachedHashedStorageCursor.next s c = .panic) ∧
    (∀ (s : CachedHashedAccountCursor) (c : AccountCursorCache) (k : Nat)
      (ops : List AOp), runA s c (AOp.seek k :: ops) ≠ .panic) ∧
    (∀ (s : CachedHashedStorageCursor) (c : HashedStorageCursorCache)
      (k sk : Nat) (ops : List SOp), runS s c (SOp.seek k sk :: ops) ≠ .panic) := by
  refine ⟨?_, ?_, ?_, ?_⟩
  · intro s c h
    exact Anext_panic s c (by rw [h]; rfl)
  · intro s c h
    exact Snext_panic s c h
  · intro s c k ops
    simp only [runA]
    cases hrun : runA (s.seek c k).2.1 (s.seek c k).2.2 ops with
    | panic => exact absurd hrun (runA_no_panic ops _ _ (by rw [Aseek_pos]; simp))
    | ok v => simp
  · intro s c k sk ops
    simp only [runS]
    cases hrun : runS (s.seek c k sk).2.1 (s.seek c k sk).2.2 ops with
    | panic => exact absurd hrun (runS_no_panic ops _ _ (by rw [Sseek_pos]; simp))
    | ok v => simp

/-- Witness for C10 on fresh cursors over a concrete data source. -/
theorem C10_witness :
    (CachedHashedAccountCursor.new (freshRealAccountCursor [(1, 10)])).position
      = .uninit ∧
    CachedHashedAccountCursor.next
      (CachedHashedAccountCursor.new (freshRealAccountCursor [(1, 10)]))
      AccountCursorCache.empty = .panic ∧
    CachedHashedStorageCursor.next
      (CachedHashedStorageCursor.new (freshRealStorageCursor [((1, 1), 10)] []))
      HashedStorageCursorCache.empty = .panic ∧
    runA (CachedHashedAccountCursor.new (freshRealAccountCursor [(1, 10)]))
      AccountCursorCache.empty [AOp.seek 1, AOp.next, AOp.next] ≠ .panic :=
  ⟨rfl,
    C10_next_before_seek_fatal.1 _ _ rfl,
    C10_next_before_seek_fatal.2.1 _ _ rfl,
    C10_next_before_seek_fatal.2.2.1 _ _ 1 [AOp.next, AOp.next]⟩

/-! ## Claim C7 -/

/-- C7: termination stability.  For either leaf cursor, once the cache
records a key's sequence as terminated at length `N` (marker `N` with `N`
values recorded), every `next()` whose logical index is at least `N` returns
`Ok(None)` and leaves both the shared cache and the whole decorator-owned
real cursor untouched, for every instance sharing the cache. -/
theorem C7_termination_stability :
    (∀ (s : CachedHashedAccountCursor) (cache : AccountCursorCache)
      (k : Nat) (N i : Nat) (e : NextAccountCacheEntry),
      alook cache.next_cache k = some e → e.terminated_size = some N →
      e.values.length = N → nextIndexA s.position = some (k, i) → N ≤ i →
      CachedHashedAccountCursor.next s cache =
        .ok (none, { s with position := .next k i, last_value := none }, cache)) ∧
    (∀ (s : CachedHashedStorageCursor) (cache : HashedStorageCursorCache)
      (p : Nat × Nat) (N j : Nat) (e : NextStorageCacheEntry),
      alook cache.seek_cache p = some e → e.terminated_size = some N →
      e.values.length = N → s.position = .seek p j → N ≤ j + 1 →
      CachedHashedStorageCursor.next s cache =
        .ok (none, { s with position := .seek p (j + 1) }, cache)) := by
  constructor
  · intro s cache k N i e halook hterm hlen hni hNi
    rw [Anext_reduce s cache k i hni]
    have h1 : (alook cache.next_cache k).getD ⟨none, []⟩ = e := by
      rw [halook]; rfl
    rw [h1, aput_alook_eq _ _ _ halook,
      List.getElem?_eq_none (by omega : e.values.length ≤ i), hterm]
    simp only [CachedHashedAccountCursor.nextStep]
    rw [if_pos hNi]
  · intro s cache p N j e halook hterm hlen hp hNj
    rw [Snext_reduce s cache p j hp]
    have h1 : (alook cache.seek_cache p).getD ⟨none, []⟩ = e := by
      rw [halook]; rfl
    rw [h1, aput_alook_eq _ _ _ halook,
      List.getElem?_eq_none (by omega : e.values.length ≤ j + 1), hterm]
    simp only [CachedHashedStorageCursor.nextStep]
    rw [if_pos hNj]

/-- Witness for C7 at a concrete terminated cache state. -/
theorem C7_witness :
    alook ({ seek_cache := [(4, some (5, 50))],
             next_cache := [(4, ⟨some 1, [(9, 90)]⟩)] } : AccountCursorCache).next_cache 4
      = some ⟨some 1, [(9, 90)]⟩ ∧
    (⟨some 1, [(9, 90)]⟩ : NextAccountCacheEntry).terminated_size = some 1 ∧
    (⟨some 1, [(9, 90)]⟩ : NextAccountCacheEntry).values.length = 1 ∧
    nextIndexA (CachedHashedAccountCursor.mk (freshRealAccountCursor [(9, 90)])
      none (.next 4 1) none).position = some (4, 2) ∧
    1 ≤ 2 ∧
    CachedHashedAccountCursor.next
      (CachedHashedAccountCursor.mk (freshRealAccountCursor [(9, 90)]) none (.next 4 1) none)
      { seek_cache := [(4, some (5, 50))], next_cache := [(4, ⟨some 1, [(9, 90)]⟩)] } =
      .ok (none,
        { CachedHashedAccountCursor.mk (freshRealAccountCursor [(9, 90)]) none (.next 4 1) none
            with position := .next 4 2, last_value := none },
        { seek_cache := [(4, some (5, 50))], next_cache := [(4, ⟨some 1, [(9, 90)]⟩)] }) :=
  ⟨by decide, by decide, by decide, by decide, by decide,
    C7_termination_stability.1 _ _ 4 1 2 ⟨some 1, [(9, 90)]⟩
      (by decide) (by decide) (by decide) (by decide) (by decide)⟩

/-! ## Claim C4 (code bug: duplicate append on re-seek breaks replay) -/

/-- C4 fails on the code: evaluating the storage decorator at the failing
input.  Instance A runs `seek(2,2); seek(1,1); seek(2,2); next` from an empty
cache over the two-record data source; the third seek is served from the
cache without moving the physical cursor, so the fourth call's catch-up
re-seek appends the seek result `20` a second time (`values = [20, 20]`)
before recording termination.  A returns `None` for that call (matching the
fresh uncached cursor).  Instance B replaying the identical sequence makes
zero real seeks and zero real nexts, as the claim says, but hits the
corrupted `values[1]` and returns `Some 20` — different from A. -/
theorem C4_second_instance_diverges :
    runS (CachedHashedStorageCursor.new
        (freshRealStorageCursor [((1, 1), 10), ((2, 2), 20)] []))
      HashedStorageCursorCache.empty
      [SOp.seek 2 2, SOp.seek 1 1, SOp.seek 2 2, SOp.next]
    = .ok ([some 20, some 10, some 20, none],
        { cursor := { data := [((1, 1), 10), ((2, 2), 20)], empty_storage := [],
                      idx := 2, seeks := 3, nexts := 1, empty_storage_calls := 0 },
          cursor_pos := .seek (2, 2) 1, position := .seek (2, 2) 1 },
        { empty_storage := [],
          seek_cache := [((2, 2), ⟨some 2, [20, 20]⟩), ((1, 1), ⟨none, [10]⟩)] }) ∧
    runS (CachedHashedStorageCursor.new
        (freshRealStorageCursor [((1, 1), 10), ((2, 2), 20)] []))
      { empty_storage := [],
        seek_cache := [((2, 2), ⟨some 2, [20, 20]⟩), ((1, 1), ⟨none, [10]⟩)] }
      [SOp.seek 2 2, SOp.seek 1 1, SOp.seek 2 2, SOp.next]
    = .ok ([some 20, some 10, some 20, some 20],
        { cursor := { data := [((1, 1), 10), ((2, 2), 20)], empty_storage := [],
                      idx := 0, seeks := 0, nexts := 0, empty_storage_calls := 0 },
          cursor_pos := .uninit, position := .seek (2, 2) 1 },
        { empty_storage := [],
          seek_cache := [((2, 2), ⟨some 2, [20, 20]⟩), ((1, 1), ⟨none, [10]⟩)] }) ∧
    ([some 20, some 10, some 20, some 20] : List (Option Nat))
      ≠ [some 20, some 10, some 20, none] ∧
    (runRealS (freshRealStorageCursor [((1, 1), 10), ((2, 2), 20)] [])
      [SOp.seek 2 2, SOp.seek 1 1, SOp.seek 2 2, SOp.next]).1
    = [some 20, some 10, some 20, none] := by
  refine ⟨by decide, by decide, by decide, by decide⟩

/-! ## Claim C5 (code bug: current() before any seek does not panic) -/

/-- C5 fails on the code: on a fresh `CachedTrieCursor` with an empty cache,
`current()` finds no cached entry for the `SeekArgs::None` tag, but since
`cursor_last_seek == last_seek` (both `None`), the repositioning branch that
contains `.expect("current called before seek")` is skipped; the decorator
delegates to the real cursor's `current()`, returns its value, and memoizes
it under the `None` tag.  Nothing panics. -/
theorem C5_current_before_seek_returns :
    CachedTrieCursor.current
      (CachedTrieCursor.new (freshRealTrieCursor [(3, 7)]))
      TrieCursorCache.empty
    = .ok (some 3, CachedTrieCursor.new (freshRealTrieCursor [(3, 7)]),
        { seek := [], seek_exact := [], current := [(SeekArgs.none, some 3)] }) := by
  decide

/-! ## Claim C8 (corrected: size() counts neither termination markers nor
trie tables) -/

theorem sum_map_eq_foldr {α : Type} (l : List α) (f : α → Nat) :
    (l.map f).sum = l.foldr (fun p acc => acc + f p) 0 := by
  induction l with
  | nil => rfl
  | cons a t ih => simp [ih]; omega

theorem length_eq_foldr {α : Type} (l : List α) :
    l.length = l.foldr (fun _ acc => acc + 1) 0 := by
  induction l with
  | nil => rfl
  | cons a t ih => simp [ih]

/-- C8 counterexample: a cache state holding one memoized account seek
entry, one termination marker, and one trie-node seek entry.  `size()`
reports 1; the total entry count over all tables described by the claim is
3. -/
theorem C8_counterexample :
    HashedCursorCache.size
      (CursorCache.mk
        { account_cursor_cache :=
            { seek_cache := [(5, none)], next_cache := [(5, ⟨some 0, []⟩)] }
          storage_cursor_cache := { empty_storage := [], seek_cache := [] } }
        { account_cache := { seek := [(1, none)], seek_exact := [], current := [] }
          storage_cache := [] }).hashed_cursor
    ≠ claimedSize
      (CursorCache.mk
        { account_cursor_cache :=
            { seek_cache := [(5, none)], next_cache := [(5, ⟨some 0, []⟩)] }
          storage_cursor_cache := { empty_storage := [], seek_cache := [] } }
        { account_cache := { seek := [(1, none)], seek_exact := [], current := [] }
          storage_cache := [] }) := by
  decide

/-- C8 amended: `HashedCursorCache::size()` returns the number of memoized
account seek entries, plus all cached account successor values, plus all
cached storage sequence values, plus the empty-storage flags — and nothing
else: termination markers and the trie-node tables (which live in the
separate `TrieCursorsCaches`) are not counted. -/
theorem C8_size_counts_hashed_values_only (c : CursorCache) :
    c.hashed_cursor.size = amendedSize c := by
  unfold HashedCursorCache.size amendedSize
  rw [sum_map_eq_foldr c.hashed_cursor.account_cursor_cache.next_cache,
    sum_map_eq_foldr c.hashed_cursor.storage_cursor_cache.seek_cache,
    length_eq_foldr c.hashed_cursor.account_cursor_cache.seek_cache,
    length_eq_foldr c.hashed_cursor.storage_cursor_cache.empty_storage]

/-! ## Claim C9 -/

/-- C9: per-account trie sub-cache independence.  (i) The sub-cache for an
account is created lazily, on the first `storage_tries_cursor` request for
it; (ii) when it already exists, later requests leave the factory state
unchanged (every cursor for the account binds the same table); (iii) a trie
cursor operation through a cursor bound to account `a` leaves the sub-cache
of every other account `b` (and the account-trie cache) unchanged; and (iv)
the outcome of an operation through a cursor bound to `b` depends only on
`b`'s sub-cache, so population for `a` leaves all results for `b`
unchanged. -/
theorem C9_storage_subcache_independence :
    (∀ (caches : TrieCursorsCaches) (a : Nat) (rc : RealTrieCursor),
      alook caches.storage_cache a = none →
      (CachedTrieCursorFactory.storage_tries_cursor caches a rc).2.storage_cache
          = aput caches.storage_cache a TrieCursorCache.empty ∧
        alook (CachedTrieCursorFactory.storage_tries_cursor caches a rc).2.storage_cache a
          = some TrieCursorCache.empty) ∧
    (∀ (caches : TrieCursorsCaches) (a : Nat) (rc : RealTrieCursor)
      (t : TrieCursorCache),
      alook caches.storage_cache a = some t →
      (CachedTrieCursorFactory.storage_tries_cursor caches a rc).2 = caches) ∧
    (∀ (caches : TrieCursorsCaches) (a : Nat) (s : CachedTrieCursor) (op : TOp)
      (r : TRes) (s' : CachedTrieCursor) (caches' : TrieCursorsCaches) (b : Nat),
      storageTrieStep caches a s op = .ok (r, s', caches') → b ≠ a →
      alook caches'.storage_cache b = alook caches.storage_cache b ∧
        caches'.account_cache = caches.account_cache) ∧
    (∀ (caches1 caches2 : TrieCursorsCaches) (b : Nat) (s : CachedTrieCursor)
      (op : TOp),
      alook caches1.storage_cache b = alook caches2.storage_cache b →
      (storageTrieStep caches1 b s op = .panic ↔
        storageTrieStep caches2 b s op = .panic) ∧
      (∀ (r : TRes) (s' : CachedTrieCursor) (caches1' : TrieCursorsCaches),
        storageTrieStep caches1 b s op = .ok (r, s', caches1') →
        ∃ caches2', storageTrieStep caches2 b s op = .ok (r, s', caches2') ∧
          alook caches1'.storage_cache b = alook caches2'.storage_cache b)) := by
  refine ⟨?_, ?_, ?_, ?_⟩
  · intro caches a rc h
    unfold CachedTrieCursorFactory.storage_tries_cursor
    rw [h]
    exact ⟨rfl, alook_aput_self _ _ _⟩
  · intro caches a rc t h
    unfold CachedTrieCursorFactory.storage_tries_cursor
    rw [h]
  · intro caches a s op r s' caches' b heq hba
    unfold storageTrieStep at heq
    cases hstep : CachedTrieCursor.step s
        ((alook caches.storage_cache a).getD TrieCursorCache.empty) op with
    | panic => rw [hstep] at heq; cases heq
    | ok v =>
      obtain ⟨r0, s0, sub'⟩ := v
      rw [hstep] at heq
      have h2 := PResult.ok.inj heq
      have hc := congrArg (fun x => x.2.2) h2
      simp only at hc
      rw [← hc]
      exact ⟨alook_aput_ne _ _ _ _ hba, rfl⟩
  · intro c1 c2 b s op him
    unfold storageTrieStep
    rw [him]
    cases hstep : CachedTrieCursor.step s
        ((alook c2.storage_cache b).getD TrieCursorCache.empty) op with
    | panic =>
      refine ⟨Iff.rfl, fun r s' c1' h => ?_⟩
      cases h
    | ok v =>
      obtain ⟨r0, s0, sub'⟩ := v
      constructor
      · constructor
        · intro h; cases h
        · intro h; cases h
      · intro r s' c1' h
        have h2 := PResult.ok.inj h
        simp only [Prod.mk.injEq] at h2
        obtain ⟨hr, hs, hc⟩ := h2
        subst hr
        subst hs
        subst hc
        refine ⟨{ c2 with storage_cache := aput c2.storage_cache b sub' }, rfl, ?_⟩
        show alook (aput c1.storage_cache b sub') b
          = alook (aput c2.storage_cache b sub') b
        rw [alook_aput_self, alook_aput_self]

/-- Witness for C9 at concrete factory states. -/
theorem C9_witness :
    alook (TrieCursorsCaches.empty).storage_cache 1 = none ∧
    alook (TrieCursorsCaches.mk TrieCursorCache.empty
      [(2, TrieCursorCache.empty)]).storage_cache 2 = some TrieCursorCache.empty ∧
    (2 : Nat) ≠ 1 ∧
    alook (TrieCursorsCaches.empty).storage_cache 3
      = alook (TrieCursorsCaches.mk TrieCursorCache.empty
          [(4, TrieCursorCache.empty)]).storage_cache 3 ∧
    ((CachedTrieCursorFactory.storage_tries_cursor TrieCursorsCaches.empty 1
        (freshRealTrieCursor [(3, 7)])).2.storage_cache
      = aput (TrieCursorsCaches.empty).storage_cache 1 TrieCursorCache.empty) ∧
    ((CachedTrieCursorFactory.storage_tries_cursor
        (TrieCursorsCaches.mk TrieCursorCache.empty [(2, TrieCursorCache.empty)]) 2
        (freshRealTrieCursor [(3, 7)])).2
      = TrieCursorsCaches.mk TrieCursorCache.empty [(2, TrieCursorCache.empty)]) :=
  ⟨by decide, by decide, by decide, by decide,
    (C9_storage_subcache_independence.1 TrieCursorsCaches.empty 1
      (freshRealTrieCursor [(3, 7)]) (by decide)).1,
    C9_storage_subcache_independence.2.1
      (TrieCursorsCaches.mk TrieCursorCache.empty [(2, TrieCursorCache.empty)]) 2
      (freshRealTrieCursor [(3, 7)]) TrieCursorCache.empty (by decide)⟩

/-! ## C2: storage-cursor re-seek replay -/

theorem aput_aput {α β : Type} [DecidableEq α] (m : List (α × β)) (k : α)
    (v v' : β) : aput (aput m k v) k v' = aput m k v' := by
  induction m with
  | nil => simp [aput]
  | cons e t ih =>
    by_cases h : e.1 = k
    · simp [aput, h]
    · simp [aput, h, ih]

theorem p1values_length (data : List ((Nat × Nat) × Nat)) (p : Nat × Nat)
    (i : Nat) : (p1values data p i).length = min (i + 1) (availS data p) := by
  unfold p1values availS
  simp only [List.length_map, List.length_take, List.length_drop]
  omega

theorem p1values_getElem (data : List ((Nat × Nat) × Nat)) (p : Nat × Nat)
    (i j : Nat) (hj : j < min (i + 1) (availS data p)) :
    (p1values data p i)[j]? =
      Option.map Prod.snd data[storageSeekIdx data p + j]? := by
  unfold p1values
  rw [List.getElem?_map, List.getElem?_take, if_pos hj, List.getElem?_drop]

theorem p1values_getElem_none (data : List ((Nat × Nat) × Nat)) (p : Nat × Nat)
    (i j : Nat) (hj : min (i + 1) (availS data p) ≤ j) :
    (p1values data p i)[j]? = none := by
  apply List.getElem?_eq_none
  rw [p1values_length]
  exact hj

theorem specSSeq_eq_none (data : List ((Nat × Nat) × Nat)) (p : Nat × Nat)
    (i : Nat) (h : availS data p ≤ i) : specSSeq data p i = none := by
  unfold availS at h
  unfold specSSeq sPayload
  rw [List.getElem?_eq_none (by omega)]
  rfl

theorem specSTail_cons (data : List ((Nat × Nat) × Nat)) (p : Nat × Nat)
    (i k : Nat) :
    specSTail data p i (k + 1) =
      specSSeq data p (i + 1) :: specSTail data p (i + 1) k := by
  unfold specSTail
  rw [List.range_succ_eq_map]
  simp only [List.map_cons, List.map_map]
  congr 1
  refine List.map_congr_left ?_
  intro j _
  simp only [Function.comp]
  congr 1
  omega

theorem specSList_eq_cons (data : List ((Nat × Nat) × Nat)) (p : Nat × Nat)
    (n : Nat) :
    specSList data p n = specSSeq data p 0 :: specSTail data p 0 n := by
  unfold specSList specSTail
  rw [List.range_succ_eq_map]
  simp only [List.map_cons, List.map_map]
  congr 1
  refine List.map_congr_left ?_
  intro j _
  simp only [Function.comp]
  congr 1
  omega

theorem storageNextLoop_one_some (s : CachedHashedStorageCursor)
    (key : Nat × Nat) (entry : NextStorageCacheEntry) (ci : Nat) (v : Nat)
    (h : (RealStorageCursor.next s.cursor).1 = some v) :
    storageNextLoop s key entry ci 1 =
      ({ s with cursor := (RealStorageCursor.next s.cursor).2,
                cursor_pos := .seek key (ci + 1) },
        { entry with values := entry.values ++ [v] }, false) := by
  show storageNextLoop s key entry ci (0 + 1) = _
  unfold storageNextLoop
  rw [h]
  rfl

theorem storageNextLoop_one_none (s : CachedHashedStorageCursor)
    (key : Nat × Nat) (entry : NextStorageCacheEntry) (ci : Nat)
    (h : (RealStorageCursor.next s.cursor).1 = none) :
    storageNextLoop s key entry ci 1 =
      ({ s with cursor := (RealStorageCursor.next s.cursor).2,
                cursor_pos := .seek key (ci + 1) },
        { entry with terminated_size := some entry.values.length }, true) := by
  show storageNextLoop s key entry ci (0 + 1) = _
  unfold storageNextLoop
  rw [h]

theorem Sseek_first (s : CachedHashedStorageCursor)
    (cache : HashedStorageCursorCache) (p : Nat × Nat)
    (hp : alook cache.seek_cache p = none) :
    CachedHashedStorageCursor.seek s cache p.1 p.2 =
      (specSSeq s.cursor.data p 0, G1inst s.cursor p 0,
        { cache with seek_cache := aput cache.seek_cache p (P1entry s.cursor.data p 0) }) := by
  obtain ⟨k, sk⟩ := p
  unfold CachedHashedStorageCursor.seek
  simp only []
  rw [hp]
  simp only [Option.getD_none, List.head?_nil]
  rw [CachedHashedStorageCursor.seekStep]
  rw [if_neg (by simp)]
  unfold CachedHashedStorageCursor.seekMiss
  simp only [RealStorageCursor.seek]
  cases hd : s.cursor.data[storageSeekIdx s.cursor.data (k, sk)]? with
  | none =>
    simp only [Option.map_none']
    have hlen : s.cursor.data.length ≤ storageSeekIdx s.cursor.data (k, sk) :=
      List.getElem?_eq_none_iff.mp hd
    have havail : availS s.cursor.data (k, sk) = 0 := by unfold availS; omega
    rw [aput_aput, specSSeq_eq_none _ _ _ (le_of_eq havail)]
    simp [G1inst, P1entry, p1values, havail, Nat.zero_min]
  | some r =>
    simp only [Option.map_some', List.nil_append]
    have hlt : storageSeekIdx s.cursor.data (k, sk) < s.cursor.data.length := by
      by_contra hcon
      rw [List.getElem?_eq_none (by omega)] at hd
      cases hd
    have havail : 0 < availS s.cursor.data (k, sk) := by unfold availS; omega
    have hget : s.cursor.data[storageSeekIdx s.cursor.data (k, sk)] = r := by
      rw [List.getElem?_eq_getElem hlt] at hd
      exact Option.some.inj hd
    have hspec : specSSeq s.cursor.data (k, sk) 0 = some r.2 := by
      unfold specSSeq sPayload
      rw [Nat.add_zero, hd]
      rfl
    have hentry : P1entry s.cursor.data (k, sk) 0 = ⟨none, [r.2]⟩ := by
      unfold P1entry p1values
      rw [if_neg (by omega)]
      have h2 : min (0 + 1) (availS s.cursor.data (k, sk)) = 1 := by omega
      rw [h2, List.drop_eq_getElem_cons hlt, hget, List.take_succ_cons,
        List.take_zero, List.map_cons]
      rfl
    rw [aput_aput, hspec, hentry]
    simp [G1inst, Nat.zero_min]

theorem Snext_pass1 (c0 : RealStorageCursor) (es : List (Nat × Bool))
    (base : List ((Nat × Nat) × NextStorageCacheEntry)) (p : Nat × Nat)
    (i : Nat) :
    CachedHashedStorageCursor.next (G1inst c0 p i)
      { empty_storage := es, seek_cache := aput base p (P1entry c0.data p i) } =
      .ok (specSSeq c0.data p (i + 1), G1inst c0 p (i + 1),
        { empty_storage := es, seek_cache := aput base p (P1entry c0.data p (i + 1)) }) := by
  rw [Snext_reduce _ _ p i rfl]
  simp only [alook_aput_self, Option.getD_some, aput_aput]
  have hval : (P1entry c0.data p i).values = p1values c0.data p i := rfl
  have hts : (P1entry c0.data p i).terminated_size =
      (if availS c0.data p ≤ i then some (availS c0.data p) else none) := rfl
  rw [hval, p1values_getElem_none c0.data p i (i + 1) (by omega), hts]
  by_cases hterm : availS c0.data p ≤ i
  · rw [if_pos hterm]
    simp only [CachedHashedStorageCursor.nextStep]
    rw [if_pos (by omega : availS c0.data p ≤ i + 1)]
    rw [specSSeq_eq_none c0.data p (i + 1) (by omega)]
    have hE : P1entry c0.data p (i + 1) = P1entry c0.data p i := by
      unfold P1entry p1values
      rw [if_pos hterm, if_pos (by omega : availS c0.data p ≤ i + 1),
        (by omega : min (i + 1 + 1) (availS c0.data p) = min (i + 1) (availS c0.data p))]
    rw [hE]
    have hmin : min i (availS c0.data p) = min (i + 1) (availS c0.data p) := by omega
    simp [G1inst, hmin]
  · rw [if_neg hterm]
    simp only [CachedHashedStorageCursor.nextStep]
    have hmin : min i (availS c0.data p) = i := by omega
    have hcur : (G1inst c0 p i).cursor = { c0 with idx := storageSeekIdx c0.data p + i, seeks := c0.seeks + 1, nexts := c0.nexts + i } := by
      simp [G1inst, hmin]
    have hcp : (G1inst c0 p i).cursor_pos = StorageCursorPos.seek p i := by
      simp [G1inst, hmin]
    simp only [CachedHashedStorageCursor.nextMiss, hcp, hcur]
    rw [if_pos trivial]
    unfold CachedHashedStorageCursor.nextFinish
    rw [(by omega : i + 1 - i = 1)]
    have hKi : storageSeekIdx c0.data p + i < c0.data.length := by
      unfold availS at hterm; omega
    have hnext2 : (RealStorageCursor.next { c0 with idx := storageSeekIdx c0.data p + i, seeks := c0.seeks + 1, nexts := c0.nexts + i }).2 = { c0 with idx := storageSeekIdx c0.data p + i + 1, seeks := c0.seeks + 1, nexts := c0.nexts + i + 1 } := by
      unfold RealStorageCursor.next
      rw [if_neg (by simp only []; omega)]
    cases hd : c0.data[storageSeekIdx c0.data p + i + 1]? with
    | some r =>
      obtain ⟨h3, _⟩ := List.getElem?_eq_some.mp hd
      have hi1 : i + 1 < availS c0.data p := by
        unfold availS
        omega
      have hnext1 : (RealStorageCursor.next { c0 with idx := storageSeekIdx c0.data p + i, seeks := c0.seeks + 1, nexts := c0.nexts + i }).1 = some r.2 := by
        unfold RealStorageCursor.next
        rw [if_neg (by simp only []; omega)]
        simp only []
        rw [hd]
        rfl
      rw [storageNextLoop_one_some _ _ _ _ r.2 hnext1, hnext2]
      rw [if_neg (by simp)]
      simp only [hval, hts]
      rw [if_neg hterm]
      rw [getElem?_snoc, p1values_length]
      rw [if_neg (by omega), if_pos (by omega)]
      have hspec : specSSeq c0.data p (i + 1) = some r.2 := by
        unfold specSSeq sPayload
        rw [(by omega : storageSeekIdx c0.data p + (i + 1) = storageSeekIdx c0.data p + i + 1), hd]
        rfl
      rw [hspec]
      have hval2 : p1values c0.data p (i + 1) = p1values c0.data p i ++ [r.2] := by
        unfold p1values
        rw [(by omega : min (i + 1 + 1) (availS c0.data p) = min (i + 1) (availS c0.data p) + 1)]
        rw [List.take_succ, List.getElem?_drop]
        rw [(by omega : storageSeekIdx c0.data p + min (i + 1) (availS c0.data p) = storageSeekIdx c0.data p + i + 1), hd]
        rw [List.map_append]
        rfl
      have hE : P1entry c0.data p (i + 1) = { terminated_size := none, values := p1values c0.data p i ++ [r.2] } := by
        unfold P1entry
        rw [if_neg (by omega : ¬ availS c0.data p ≤ i + 1), hval2]
      rw [← hE, aput_aput]
      have hmin2 : min (i + 1) (availS c0.data p) = i + 1 := by omega
      simp [G1inst, hmin2, Nat.add_assoc]
    | none =>
      have hlen2 : c0.data.length ≤ storageSeekIdx c0.data p + i + 1 :=
        List.getElem?_eq_none_iff.mp hd
      have havail : availS c0.data p = i + 1 := by
        unfold availS
        omega
      have hnext1 : (RealStorageCursor.next { c0 with idx := storageSeekIdx c0.data p + i, seeks := c0.seeks + 1, nexts := c0.nexts + i }).1 = none := by
        unfold RealStorageCursor.next
        rw [if_neg (by simp only []; omega)]
        simp only []
        rw [hd]
        rfl
      rw [storageNextLoop_one_none _ _ _ _ hnext1, hnext2]
      rw [if_pos rfl]
      simp only [hval, hts]
      rw [specSSeq_eq_none c0.data p (i + 1) (by omega)]
      rw [p1values_length]
      rw [(by omega : min (i + 1) (availS c0.data p) = availS c0.data p)]
      have hpv : p1values c0.data p (i + 1) = p1values c0.data p i := by
        unfold p1values
        rw [(by omega : min (i + 1 + 1) (availS c0.data p) = min (i + 1) (availS c0.data p))]
      have hE : P1entry c0.data p (i + 1) = { terminated_size := some (availS c0.data p), values := p1values c0.data p i } := by
        unfold P1entry
        rw [if_pos (by omega : availS c0.data p ≤ i + 1), hpv]
      rw [← hE, aput_aput]
      have hmin2 : min (i + 1) (availS c0.data p) = i + 1 := by omega
      simp [G1inst, hmin2, Nat.add_assoc]

theorem runS_pass1_tail (c0 : RealStorageCursor) (es : List (Nat × Bool))
    (base : List ((Nat × Nat) × NextStorageCacheEntry)) (p : Nat × Nat)
    (k : Nat) :
    ∀ i : Nat,
      runS (G1inst c0 p i) { empty_storage := es, seek_cache := aput base p (P1entry c0.data p i) } (List.replicate k SOp.next) =
        .ok (specSTail c0.data p i k, G1inst c0 p (i + k),
          { empty_storage := es, seek_cache := aput base p (P1entry c0.data p (i + k)) }) := by
  induction k with
  | zero =>
    intro i
    simp [runS, specSTail]
  | succ k ih =>
    intro i
    rw [List.replicate_succ]
    simp only [runS]
    rw [Snext_pass1]
    simp only []
    rw [ih (i + 1)]
    simp only []
    rw [specSTail_cons]
    rw [(by omega : i + 1 + k = i + (k + 1))]

theorem runS_pass1 (s : CachedHashedStorageCursor) (cache : HashedStorageCursorCache)
    (p : Nat × Nat) (n : Nat) (hp : alook cache.seek_cache p = none) :
    runS s cache (SOp.seek p.1 p.2 :: List.replicate n SOp.next) =
      .ok (specSList s.cursor.data p n, G1inst s.cursor p n,
        { cache with seek_cache := aput cache.seek_cache p (P1entry s.cursor.data p n) }) := by
  simp only [runS]
  rw [Sseek_first s cache p hp]
  simp only []
  rw [runS_pass1_tail s.cursor cache.empty_storage cache.seek_cache p n 0]
  simp only []
  rw [specSList_eq_cons]
  rw [(by omega : 0 + n = n)]

theorem Sseek_replay (s : CachedHashedStorageCursor) (cache : HashedStorageCursorCache)
    (p : Nat × Nat) (n : Nat)
    (hp : alook cache.seek_cache p = some (P1entry s.cursor.data p n)) :
    CachedHashedStorageCursor.seek s cache p.1 p.2 =
      (specSSeq s.cursor.data p 0, { s with position := StorageCursorPos.seek p 0 }, cache) := by
  obtain ⟨k, sk⟩ := p
  unfold CachedHashedStorageCursor.seek
  simp only []
  rw [hp]
  simp only [Option.getD_some]
  rw [aput_alook_eq _ _ _ hp]
  by_cases h0 : availS s.cursor.data (k, sk) = 0
  · have hpv0 : p1values s.cursor.data (k, sk) n = [] := by
      unfold p1values
      rw [(by omega : min (n + 1) (availS s.cursor.data (k, sk)) = 0)]
      rfl
    have hhead : (P1entry s.cursor.data (k, sk) n).values.head? = none := by
      show (p1values s.cursor.data (k, sk) n).head? = none
      rw [hpv0]
      rfl
    rw [hhead]
    simp only [CachedHashedStorageCursor.seekStep]
    have hts0 : (P1entry s.cursor.data (k, sk) n).terminated_size = some 0 := by
      show (if availS s.cursor.data (k, sk) ≤ n then some (availS s.cursor.data (k, sk)) else none) = some 0
      rw [if_pos (by omega), h0]
    rw [hts0]
    rw [if_pos rfl]
    rw [specSSeq_eq_none _ _ _ (by omega)]
  · have hlt : storageSeekIdx s.cursor.data (k, sk) < s.cursor.data.length := by
      unfold availS at h0
      omega
    obtain ⟨r, hr⟩ : ∃ r, s.cursor.data[storageSeekIdx s.cursor.data (k, sk)]? = some r :=
      ⟨_, List.getElem?_eq_getElem hlt⟩
    have hh : (P1entry s.cursor.data (k, sk) n).values.head? = some r.2 := by
      show (p1values s.cursor.data (k, sk) n).head? = some r.2
      rw [List.head?_eq_getElem?]
      rw [p1values_getElem _ _ n 0 (by omega)]
      rw [Nat.add_zero, hr]
      rfl
    rw [hh]
    simp only [CachedHashedStorageCursor.seekStep]
    have hs0 : specSSeq s.cursor.data (k, sk) 0 = some r.2 := by
      unfold specSSeq sPayload
      rw [Nat.add_zero, hr]
      rfl
    rw [hs0]

theorem Snext_replay (s : CachedHashedStorageCursor) (cache : HashedStorageCursorCache)
    (p : Nat × Nat) (n i : Nat)
    (hp : alook cache.seek_cache p = some (P1entry s.cursor.data p n))
    (hpos : s.position = StorageCursorPos.seek p i) (hin : i < n) :
    CachedHashedStorageCursor.next s cache =
      .ok (specSSeq s.cursor.data p (i + 1), { s with position := StorageCursorPos.seek p (i + 1) }, cache) := by
  rw [Snext_reduce s cache p i hpos]
  rw [hp]
  simp only [Option.getD_some]
  rw [aput_alook_eq _ _ _ hp]
  by_cases hc : i + 1 < min (n + 1) (availS s.cursor.data p)
  · have hlt : storageSeekIdx s.cursor.data p + (i + 1) < s.cursor.data.length := by
      have hc2 := hc
      unfold availS at hc2
      omega
    obtain ⟨r, hr⟩ : ∃ r, s.cursor.data[storageSeekIdx s.cursor.data p + (i + 1)]? = some r :=
      ⟨_, List.getElem?_eq_getElem hlt⟩
    have hh : (P1entry s.cursor.data p n).values[i + 1]? = some r.2 := by
      show (p1values s.cursor.data p n)[i + 1]? = some r.2
      rw [p1values_getElem _ _ n (i + 1) hc, hr]
      rfl
    rw [hh]
    simp only [CachedHashedStorageCursor.nextStep]
    have hs1 : specSSeq s.cursor.data p (i + 1) = some r.2 := by
      unfold specSSeq sPayload
      rw [hr]
      rfl
    rw [hs1]
  · have hh : (P1entry s.cursor.data p n).values[i + 1]? = none := by
      show (p1values s.cursor.data p n)[i + 1]? = none
      exact p1values_getElem_none _ _ _ _ (by omega)
    rw [hh]
    have ht : (P1entry s.cursor.data p n).terminated_size = some (availS s.cursor.data p) := by
      show (if availS s.cursor.data p ≤ n then some (availS s.cursor.data p) else none) = _
      rw [if_pos (by omega)]
    rw [ht]
    simp only [CachedHashedStorageCursor.nextStep]
    rw [if_pos (by omega : availS s.cursor.data p ≤ i + 1)]
    rw [specSSeq_eq_none _ _ _ (by omega)]

theorem runS_replay_tail (p : Nat × Nat) (n k : Nat) :
    ∀ (s : CachedHashedStorageCursor) (cache : HashedStorageCursorCache) (i : Nat),
      alook cache.seek_cache p = some (P1entry s.cursor.data p n) →
      s.position = StorageCursorPos.seek p i → i + k ≤ n →
      runS s cache (List.replicate k SOp.next) =
        .ok (specSTail s.cursor.data p i k, { s with position := StorageCursorPos.seek p (i + k) }, cache) := by
  induction k with
  | zero =>
    intro s cache i hp hpos _
    simp only [List.replicate, runS, specSTail, List.range_zero, List.map_nil]
    rw [Nat.add_zero, ← hpos]
  | succ k ih =>
    intro s cache i hp hpos hik
    rw [List.replicate_succ]
    simp only [runS]
    rw [Snext_replay s cache p n i hp hpos (by omega)]
    simp only []
    rw [ih { s with position := StorageCursorPos.seek p (i + 1) } cache (i + 1) hp rfl (by omega)]
    simp only []
    rw [specSTail_cons]
    rw [(by omega : i + 1 + k = i + (k + 1))]

theorem runS_replay (s : CachedHashedStorageCursor) (cache : HashedStorageCursorCache)
    (p : Nat × Nat) (n : Nat)
    (hp : alook cache.seek_cache p = some (P1entry s.cursor.data p n)) :
    runS s cache (SOp.seek p.1 p.2 :: List.replicate n SOp.next) =
      .ok (specSList s.cursor.data p n, { s with position := StorageCursorPos.seek p n }, cache) := by
  simp only [runS]
  rw [Sseek_replay s cache p n hp]
  simp only []
  rw [runS_replay_tail p n n { s with position := StorageCursorPos.seek p 0 } cache 0 hp rfl (by omega)]
  simp only []
  rw [specSList_eq_cons]
  rw [(by omega : 0 + n = n)]

theorem runRealS_tail (p : Nat × Nat) (k : Nat) :
    ∀ (c : RealStorageCursor) (i : Nat),
      c.idx = storageSeekIdx c.data p + min i (availS c.data p) →
      (runRealS c (List.replicate k SOp.next)).1 = specSTail c.data p i k := by
  induction k with
  | zero =>
    intro c i _
    simp [runRealS, specSTail]
  | succ k ih =>
    intro c i hidx
    rw [List.replicate_succ]
    simp only [runRealS]
    rw [specSTail_cons]
    by_cases hend : c.data.length ≤ c.idx
    · have h1 : (RealStorageCursor.next c).1 = none := by
        unfold RealStorageCursor.next
        rw [if_pos hend]
      have h2 : (RealStorageCursor.next c).2 = { c with nexts := c.nexts + 1 } := by
        unfold RealStorageCursor.next
        rw [if_pos hend]
      have hK := storageSeekIdx_le_length c.data p
      have havail : availS c.data p ≤ min i (availS c.data p) := by
        unfold availS
        unfold availS at hidx
        omega
      congr 1
      · rw [h1, specSSeq_eq_none _ _ _ (by omega)]
      · rw [h2]
        rw [ih { c with nexts := c.nexts + 1 } (i + 1)
          (by show c.idx = storageSeekIdx c.data p + min (i + 1) (availS c.data p); omega)]
    · have h1 : (RealStorageCursor.next c).1 = Option.map Prod.snd c.data[c.idx + 1]? := by
        unfold RealStorageCursor.next
        rw [if_neg hend]
      have h2 : (RealStorageCursor.next c).2 = { c with idx := c.idx + 1, nexts := c.nexts + 1 } := by
        unfold RealStorageCursor.next
        rw [if_neg hend]
      have hK := storageSeekIdx_le_length c.data p
      have hia : i < availS c.data p := by
        unfold availS
        unfold availS at hidx
        omega
      have hmin : min i (availS c.data p) = i := by omega
      congr 1
      · rw [h1, hidx, hmin]
        unfold specSSeq sPayload
        rw [(by omega : storageSeekIdx c.data p + (i + 1) = storageSeekIdx c.data p + i + 1)]
      · rw [h2]
        rw [ih { c with idx := c.idx + 1, nexts := c.nexts + 1 } (i + 1)
          (by show c.idx + 1 = storageSeekIdx c.data p + min (i + 1) (availS c.data p); rw [hidx, hmin]; omega)]

theorem runRealS_pass1 (c : RealStorageCursor) (p : Nat × Nat) (n : Nat) :
    (runRealS c (SOp.seek p.1 p.2 :: List.replicate n SOp.next)).1 =
      specSList c.data p n := by
  simp only [runRealS]
  rw [specSList_eq_cons]
  congr 1
  rw [runRealS_tail p n (RealStorageCursor.seek c p.1 p.2).2 0
    (by show storageSeekIdx c.data p = storageSeekIdx c.data p + min 0 (availS c.data p); rw [Nat.zero_min]; rfl)]
  rfl

/-- **C2.** For the cached hashed storage cursor over an immutable data
source: a first pass `seek (K1,S1)` + `n` `next` calls from an empty shared
cache returns exactly the fresh uncached results `specSList data p n`; an
interposed pass `seek (K2,S2)` + `m` `next` calls over a different pair
returns its own fresh results; and re-seeking `(K1,S1)` and repeating the
same `n` `next` calls reproduces the first pass exactly, leaving both the
wrapped real cursor and the shared cache untouched (the replay is served
entirely from the cache rather than re-derived from the physical cursor
position). -/
theorem C2_storage_reseek_replay (data : List ((Nat × Nat) × Nat))
    (es : List Nat) (p q : Nat × Nat) (n m : Nat) (hpq : p ≠ q) :
    ∃ s1 c1 s2 c2 s3 c3,
      runS (CachedHashedStorageCursor.new (freshRealStorageCursor data es))
          HashedStorageCursorCache.empty (SOp.seek p.1 p.2 :: List.replicate n SOp.next) =
        .ok (specSList data p n, s1, c1) ∧
      runS s1 c1 (SOp.seek q.1 q.2 :: List.replicate m SOp.next) =
        .ok (specSList data q m, s2, c2) ∧
      runS s2 c2 (SOp.seek p.1 p.2 :: List.replicate n SOp.next) =
        .ok (specSList data p n, s3, c3) ∧
      s3.cursor = s2.cursor ∧ c3 = c2 ∧
      (runRealS (freshRealStorageCursor data es)
          (SOp.seek p.1 p.2 :: List.replicate n SOp.next)).1 = specSList data p n := by
  refine ⟨G1inst (freshRealStorageCursor data es) p n,
    { empty_storage := [], seek_cache := [(p, P1entry data p n)] },
    G1inst (G1inst (freshRealStorageCursor data es) p n).cursor q m,
    { empty_storage := [], seek_cache := aput [(p, P1entry data p n)] q (P1entry data q m) },
    { G1inst (G1inst (freshRealStorageCursor data es) p n).cursor q m with position := StorageCursorPos.seek p n },
    { empty_storage := [], seek_cache := aput [(p, P1entry data p n)] q (P1entry data q m) },
    ?_, ?_, ?_, rfl, rfl, runRealS_pass1 (freshRealStorageCursor data es) p n⟩
  · exact runS_pass1 _ _ p n rfl
  · exact runS_pass1 _ _ q m (by simp [alook, hpq])
  · exact runS_replay _ _ p n
      (by simp only []; rw [alook_aput_ne _ _ _ _ hpq]; simp only [alook]; rw [if_pos trivial]; rfl)

theorem C2_witness :
    (((1, 1) : Nat × Nat) ≠ (2, 1)) ∧
    (∃ s1 c1 s2 c2 s3 c3,
      runS (CachedHashedStorageCursor.new (freshRealStorageCursor [((1, 1), 5), ((1, 2), 6), ((2, 1), 7)] []))
          HashedStorageCursorCache.empty (SOp.seek 1 1 :: List.replicate 2 SOp.next) =
        .ok (specSList [((1, 1), 5), ((1, 2), 6), ((2, 1), 7)] (1, 1) 2, s1, c1) ∧
      runS s1 c1 (SOp.seek 2 1 :: List.replicate 1 SOp.next) =
        .ok (specSList [((1, 1), 5), ((1, 2), 6), ((2, 1), 7)] (2, 1) 1, s2, c2) ∧
      runS s2 c2 (SOp.seek 1 1 :: List.replicate 2 SOp.next) =
        .ok (specSList [((1, 1), 5), ((1, 2), 6), ((2, 1), 7)] (1, 1) 2, s3, c3) ∧
      s3.cursor = s2.cursor ∧ c3 = c2 ∧
      (runRealS (freshRealStorageCursor [((1, 1), 5), ((1, 2), 6), ((2, 1), 7)] [])
          (SOp.seek 1 1 :: List.replicate 2 SOp.next)).1 =
        specSList [((1, 1), 5), ((1, 2), 6), ((2, 1), 7)] (1, 1) 2) :=
  ⟨by decide, C2_storage_reseek_replay [((1, 1), 5), ((1, 2), 6), ((2, 1), 7)] [] (1, 1) (2, 1) 2 1 (by decide)⟩

/-! ## C6: cache state after a real-cursor error -/

theorem FAseek_err (s : FCachedHashedAccountCursor) (cache : AccountCursorCache)
    (k : Nat) (e : Unit) (s' : FCachedHashedAccountCursor)
    (c' : AccountCursorCache)
    (h : FCachedHashedAccountCursor.seek s cache k = (.error e, s', c')) :
    c' = cache := by
  simp only [FCachedHashedAccountCursor.seek] at h
  split at h
  · simp only [Prod.mk.injEq] at h
    exact absurd h.1 (by simp)
  · split at h
    · simp only [Prod.mk.injEq] at h
      exact h.2.2.symm
    · simp only [Prod.mk.injEq] at h
      exact absurd h.1 (by simp)

theorem FAnextMiss_err (s : FCachedHashedAccountCursor) (cache : AccountCursorCache)
    (key : Nat) (entry : NextAccountCacheEntry) (e : Unit)
    (s' : FCachedHashedAccountCursor) (c' : AccountCursorCache)
    (h : FCachedHashedAccountCursor.nextMiss s cache key entry = (.error e, s', c')) :
    c' = cache := by
  simp only [FCachedHashedAccountCursor.nextMiss] at h
  split at h
  · simp only [Prod.mk.injEq] at h
    exact h.2.2.symm
  · split at h
    · simp only [Prod.mk.injEq] at h
      exact h.2.2.symm
    · split at h
      · simp only [Prod.mk.injEq] at h
        exact absurd h.1 (by simp)
      · simp only [Prod.mk.injEq] at h
        exact absurd h.1 (by simp)

theorem FAnext_err (s : FCachedHashedAccountCursor) (cache : AccountCursorCache)
    (e : Unit) (s' : FCachedHashedAccountCursor) (c' : AccountCursorCache)
    (h : FCachedHashedAccountCursor.next s cache = .ok (.error e, s', c')) :
    ∃ k i, nextIndexA s.position = some (k, i) ∧
      c' = { cache with next_cache := aput cache.next_cache k ((alook cache.next_cache k).getD ⟨none, []⟩) } := by
  simp only [FCachedHashedAccountCursor.next] at h
  split at h
  · exact absurd h (by simp)
  · rename_i key index hidx
    refine ⟨key, index, hidx, ?_⟩
    split at h
    · simp only [PResult.ok.injEq, Prod.mk.injEq] at h
      exact absurd h.1 (by simp)
    · split at h
      · split at h
        · simp only [PResult.ok.injEq, Prod.mk.injEq] at h
          exact absurd h.1 (by simp)
        · exact FAnextMiss_err _ _ _ _ _ _ _ (PResult.ok.inj h)
      · exact FAnextMiss_err _ _ _ _ _ _ _ (PResult.ok.inj h)

theorem FSempty_err (s : FCachedHashedStorageCursor) (cache : HashedStorageCursorCache)
    (k : Nat) (e : Unit) (s' : FCachedHashedStorageCursor) (c' : HashedStorageCursorCache)
    (h : FCachedHashedStorageCursor.is_storage_empty s cache k = (.error e, s', c')) :
    c' = cache := by
  simp only [FCachedHashedStorageCursor.is_storage_empty] at h
  split at h
  · simp only [Prod.mk.injEq] at h
    exact absurd h.1 (by simp)
  · split at h
    · simp only [Prod.mk.injEq] at h
      exact h.2.2.symm
    · simp only [Prod.mk.injEq] at h
      exact absurd h.1 (by simp)

theorem FSseek_err (s : FCachedHashedStorageCursor) (cache : HashedStorageCursorCache)
    (k sk : Nat) (e : Unit) (s' : FCachedHashedStorageCursor) (c' : HashedStorageCursorCache)
    (h : FCachedHashedStorageCursor.seek s cache k sk = (.error e, s', c')) :
    c' = { cache with seek_cache := aput cache.seek_cache (k, sk) ((alook cache.seek_cache (k, sk)).getD ⟨none, []⟩) } := by
  simp only [FCachedHashedStorageCursor.seek] at h
  split at h
  · simp only [Prod.mk.injEq] at h
    exact absurd h.1 (by simp)
  · split at h
    · simp only [Prod.mk.injEq] at h
      exact absurd h.1 (by simp)
    · split at h
      · simp only [Prod.mk.injEq] at h
        exact h.2.2.symm
      · split at h
        · simp only [Prod.mk.injEq] at h
          exact absurd h.1 (by simp)
        · simp only [Prod.mk.injEq] at h
          exact absurd h.1 (by simp)

theorem FTseekx_err (s : FCachedTrieCursor) (cache : TrieCursorCache)
    (k : Nat) (e : Unit) (s' : FCachedTrieCursor) (c' : TrieCursorCache)
    (h : FCachedTrieCursor.seek_exact s cache k = (.error e, s', c')) :
    c' = cache := by
  simp only [FCachedTrieCursor.seek_exact] at h
  split at h
  · simp only [Prod.mk.injEq] at h
    exact absurd h.1 (by simp)
  · split at h
    · simp only [Prod.mk.injEq] at h
      exact h.2.2.symm
    · simp only [Prod.mk.injEq] at h
      exact absurd h.1 (by simp)

theorem FTseek_err (s : FCachedTrieCursor) (cache : TrieCursorCache)
    (k : Nat) (e : Unit) (s' : FCachedTrieCursor) (c' : TrieCursorCache)
    (h : FCachedTrieCursor.seek s cache k = (.error e, s', c')) :
    c' = cache := by
  simp only [FCachedTrieCursor.seek] at h
  split at h
  · simp only [Prod.mk.injEq] at h
    exact absurd h.1 (by simp)
  · split at h
    · simp only [Prod.mk.injEq] at h
      exact h.2.2.symm
    · simp only [Prod.mk.injEq] at h
      exact absurd h.1 (by simp)

theorem FTcurrent_err (s : FCachedTrieCursor) (cache : TrieCursorCache)
    (e : Unit) (s' : FCachedTrieCursor) (c' : TrieCursorCache)
    (h : FCachedTrieCursor.current s cache = .ok (.error e, s', c')) :
    c' = cache := by
  simp only [FCachedTrieCursor.current] at h
  split at h
  · simp only [PResult.ok.injEq, Prod.mk.injEq] at h
    exact absurd h.1 (by simp)
  · split at h
    · exact absurd h (by simp)
    · simp only [PResult.ok.injEq, Prod.mk.injEq] at h
      exact h.2.2.symm
    · split at h
      · simp only [PResult.ok.injEq, Prod.mk.injEq] at h
        exact h.2.2.symm
      · simp only [PResult.ok.injEq, Prod.mk.injEq] at h
        exact absurd h.1 (by simp)

theorem fLoop_err (key : Nat × Nat) (fuel : Nat) :
    ∀ (s : FCachedHashedStorageCursor) (entry : NextStorageCacheEntry) (ci : Nat),
      (fStorageNextLoop s key entry ci fuel).2.2 = FLoopExit.err →
      (∃ t, (fStorageNextLoop s key entry ci fuel).2.1.values = entry.values ++ t) ∧
      (fStorageNextLoop s key entry ci fuel).2.1.terminated_size = entry.terminated_size := by
  induction fuel with
  | zero =>
    intro s entry ci h
    simp [fStorageNextLoop] at h
  | succ fuel ih =>
    intro s entry ci h
    cases hres : (FRealStorageCursor.next s.cursor).1 with
    | error e' =>
      have hl : fStorageNextLoop s key entry ci (fuel + 1) =
          ({ s with cursor := (FRealStorageCursor.next s.cursor).2 }, entry, FLoopExit.err) := by
        simp only [fStorageNextLoop, hres]
      rw [hl]
      exact ⟨⟨[], by rw [List.append_nil]⟩, rfl⟩
    | ok val =>
      cases val with
      | some v =>
        have hl : fStorageNextLoop s key entry ci (fuel + 1) =
            fStorageNextLoop { s with cursor := (FRealStorageCursor.next s.cursor).2, cursor_pos := .seek key (ci + 1) } key { entry with values := entry.values ++ [v] } (ci + 1) fuel := by
          simp only [fStorageNextLoop, hres]
        rw [hl] at h ⊢
        obtain ⟨⟨t, ht⟩, hterm⟩ := ih _ _ _ h
        refine ⟨⟨[v] ++ t, ?_⟩, hterm.trans rfl⟩
        rw [ht]
        simp only []
        rw [List.append_assoc]
      | none =>
        have hl : fStorageNextLoop s key entry ci (fuel + 1) =
            ({ s with cursor := (FRealStorageCursor.next s.cursor).2, cursor_pos := .seek key (ci + 1) }, { entry with terminated_size := some entry.values.length }, FLoopExit.early) := by
          simp only [fStorageNextLoop, hres]
        rw [hl] at h
        simp at h

theorem FSnextMiss_err (s : FCachedHashedStorageCursor) (cache : HashedStorageCursorCache)
    (key : Nat × Nat) (index : Nat) (entry : NextStorageCacheEntry) (e : Unit)
    (s' : FCachedHashedStorageCursor) (c' : HashedStorageCursorCache)
    (h : FCachedHashedStorageCursor.nextMiss s cache key index entry = (.error e, s', c')) :
    c' = cache ∨
      ∃ entry', c' = { cache with seek_cache := aput cache.seek_cache key entry' } ∧
        (∃ t, entry'.values = entry.values ++ t) ∧
        (entry'.terminated_size = entry.terminated_size ∨ entry'.terminated_size = some 0) := by
  simp only [FCachedHashedStorageCursor.nextMiss] at h
  split at h
  · simp only [Prod.mk.injEq] at h
    exact Or.inl h.2.2.symm
  · rename_i sec heq
    split at h
    · rename_i heq2
      simp only [Prod.mk.injEq] at h
      obtain ⟨⟨t, ht⟩, hterm⟩ := fLoop_err key _ _ _ _ heq2
      split at heq
      · obtain hsec := Except.ok.inj heq
        subst hsec
        exact Or.inr ⟨_, h.2.2.symm, ⟨t, ht⟩, Or.inl hterm⟩
      · split at heq
        · exact absurd heq (by simp)
        · split at heq
          · obtain hsec := Except.ok.inj heq
            subst hsec
            rename_i v _
            refine Or.inr ⟨_, h.2.2.symm, ⟨[v] ++ t, ?_⟩, Or.inl hterm⟩
            rw [ht]
            show (entry.values ++ [v]) ++ t = entry.values ++ ([v] ++ t)
            exact List.append_assoc _ _ _
          · obtain hsec := Except.ok.inj heq
            subst hsec
            exact Or.inr ⟨_, h.2.2.symm, ⟨t, ht⟩, Or.inr (hterm.trans rfl)⟩
    · simp only [Prod.mk.injEq] at h
      exact absurd h.1 (by simp)
    · simp only [Prod.mk.injEq] at h
      exact absurd h.1 (by simp)

theorem FSnext_err (s : FCachedHashedStorageCursor) (cache : HashedStorageCursorCache)
    (e : Unit) (s' : FCachedHashedStorageCursor) (c' : HashedStorageCursorCache)
    (h : FCachedHashedStorageCursor.next s cache = .ok (.error e, s', c')) :
    ∃ key i entry', s.position = StorageCursorPos.seek key i ∧
      c' = { cache with seek_cache := aput cache.seek_cache key entry' } ∧
      (∃ t, entry'.values = ((alook cache.seek_cache key).getD ⟨none, []⟩).values ++ t) ∧
      (entry'.terminated_size = ((alook cache.seek_cache key).getD ⟨none, []⟩).terminated_size ∨
        entry'.terminated_size = some 0) := by
  simp only [FCachedHashedStorageCursor.next] at h
  split at h
  · exact absurd h (by simp)
  · rename_i key i hpos
    have finish : FCachedHashedStorageCursor.nextMiss { s with position := StorageCursorPos.seek key (i + 1) } { cache with seek_cache := aput cache.seek_cache key ((alook cache.seek_cache key).getD ⟨none, []⟩) } key (i + 1) ((alook cache.seek_cache key).getD ⟨none, []⟩) = (.error e, s', c') → ∃ key2 i2 entry', s.position = StorageCursorPos.seek key2 i2 ∧ c' = { cache with seek_cache := aput cache.seek_cache key2 entry' } ∧ (∃ t, entry'.values = ((alook cache.seek_cache key2).getD ⟨none, []⟩).values ++ t) ∧ (entry'.terminated_size = ((alook cache.seek_cache key2).getD ⟨none, []⟩).terminated_size ∨ entry'.terminated_size = some 0) := by
      intro hm
      rcases FSnextMiss_err _ _ _ _ _ _ _ _ hm with hL | ⟨E, hc, hv, ht⟩
      · exact ⟨key, i, _, hpos, hL, ⟨[], by rw [List.append_nil]⟩, Or.inl rfl⟩
      · refine ⟨key, i, E, hpos, ?_, hv, ht⟩
        rw [hc]
        simp only []
        rw [aput_aput]
    split at h
    · have h2 := PResult.ok.inj h
      simp only [Prod.mk.injEq] at h2
      exact absurd h2.1 (by simp)
    · split at h
      · split at h
        · have h2 := PResult.ok.inj h
          simp only [Prod.mk.injEq] at h2
          exact absurd h2.1 (by simp)
        · exact finish (PResult.ok.inj h)
      · exact finish (PResult.ok.inj h)

/-- **C6 (amended).** When a real-cursor call inside a decorator operation
fails, the error is propagated, but the cache is not always exactly as
before: the account and storage `next` (and storage `seek`) have already
committed their `entry(key).or_default()` insertion, and the storage catch-up
loop commits values appended before the failing iteration (plus a possible
zero-termination marker from the repositioning seek).  Precisely: account
`seek`, storage `is_storage_empty` and all trie-cursor operations leave the
cache unchanged on error; an account `next` error leaves exactly the
or-default commit for the addressed key; a storage `next` error leaves the
addressed key bound to an entry extending the old one (old values a prefix,
termination marker unchanged or set to zero by the repositioning seek), with
all other keys and the empty-storage table untouched. -/
theorem C6_error_commits_are_bounded :
    (∀ s cache k e s' c', FCachedHashedAccountCursor.seek s cache k = (.error e, s', c') → c' = cache) ∧
    (∀ s cache e s' c', FCachedHashedAccountCursor.next s cache = .ok (.error e, s', c') →
      ∃ k i, nextIndexA s.position = some (k, i) ∧
        c' = { cache with next_cache := aput cache.next_cache k ((alook cache.next_cache k).getD ⟨none, []⟩) }) ∧
    (∀ s cache k e s' c', FCachedHashedStorageCursor.is_storage_empty s cache k = (.error e, s', c') → c' = cache) ∧
    (∀ s cache k sk e s' c', FCachedHashedStorageCursor.seek s cache k sk = (.error e, s', c') →
      c' = { cache with seek_cache := aput cache.seek_cache (k, sk) ((alook cache.seek_cache (k, sk)).getD ⟨none, []⟩) }) ∧
    (∀ s cache e s' c', FCachedHashedStorageCursor.next s cache = .ok (.error e, s', c') →
      ∃ key i entry', s.position = StorageCursorPos.seek key i ∧
        c' = { cache with seek_cache := aput cache.seek_cache key entry' } ∧
        (∃ t, entry'.values = ((alook cache.seek_cache key).getD ⟨none, []⟩).values ++ t) ∧
        (entry'.terminated_size = ((alook cache.seek_cache key).getD ⟨none, []⟩).terminated_size ∨
          entry'.terminated_size = some 0)) ∧
    (∀ s cache k e s' c', FCachedTrieCursor.seek_exact s cache k = (.error e, s', c') → c' = cache) ∧
    (∀ s cache k e s' c', FCachedTrieCursor.seek s cache k = (.error e, s', c') → c' = cache) ∧
    (∀ s cache e s' c', FCachedTrieCursor.current s cache = .ok (.error e, s', c') → c' = cache) :=
  ⟨FAseek_err, FAnext_err, FSempty_err, FSseek_err, FSnext_err, FTseekx_err, FTseek_err, FTcurrent_err⟩

/-- C6 counterexample: an account-cursor `next()` whose real `next` fails
propagates the error but leaves the shared cache changed — the
`entry(key).or_default()` insertion performed before the real call stays
committed, so the cache is not "exactly what it was before". -/
theorem C6_counterexample :
    FCachedHashedAccountCursor.next
        { cursor := { data := [(1, 10)], idx := 0, fails := [true] },
          underlying_cursor_last_key := some 1,
          position := AccountCursorPos.seek 1,
          last_value := some (1, 10) }
        AccountCursorCache.empty =
      .ok (.error (),
        { cursor := { data := [(1, 10)], idx := 0, fails := [] },
          underlying_cursor_last_key := some 1,
          position := AccountCursorPos.next 1 0,
          last_value := some (1, 10) },
        { seek_cache := [], next_cache := [(1, { terminated_size := none, values := [] })] }) ∧
    ({ seek_cache := [], next_cache := [(1, { terminated_size := none, values := [] })] } : AccountCursorCache) ≠
      AccountCursorCache.empty :=
  ⟨rfl, by decide⟩

theorem C6_witness :
    (AccountCursorCache.empty = AccountCursorCache.empty) ∧
    (∃ k i, nextIndexA (AccountCursorPos.seek 1) = some (k, i) ∧
      ({ seek_cache := [], next_cache := [(1, { terminated_size := none, values := [] })] } : AccountCursorCache) =
        { seek_cache := [], next_cache := aput [] k ((alook [] k).getD ⟨none, []⟩) }) ∧
    (HashedStorageCursorCache.empty = HashedStorageCursorCache.empty) ∧
    (({ empty_storage := [], seek_cache := [((0, 0), { terminated_size := none, values := [] })] } : HashedStorageCursorCache) =
      { empty_storage := [], seek_cache := aput [] (0, 0) ((alook [] (0, 0)).getD ⟨none, []⟩) }) ∧
    (∃ key i entry', StorageCursorPos.seek (0, 0) 0 = StorageCursorPos.seek key i ∧
      ({ empty_storage := [], seek_cache := [((0, 0), { terminated_size := none, values := [] })] } : HashedStorageCursorCache) =
        { empty_storage := [], seek_cache := aput [] key entry' } ∧
      (∃ t, entry'.values = ((alook ([] : List ((Nat × Nat) × NextStorageCacheEntry)) key).getD ⟨none, []⟩).values ++ t) ∧
      (entry'.terminated_size = ((alook ([] : List ((Nat × Nat) × NextStorageCacheEntry)) key).getD ⟨none, []⟩).terminated_size ∨
        entry'.terminated_size = some 0)) ∧
    (TrieCursorCache.empty = TrieCursorCache.empty) ∧
    (TrieCursorCache.empty = TrieCursorCache.empty) ∧
    (TrieCursorCache.empty = TrieCursorCache.empty) :=
  ⟨C6_error_commits_are_bounded.1
      ⟨⟨[], 0, [true]⟩, none, AccountCursorPos.uninit, none⟩
      AccountCursorCache.empty 0 ()
      ⟨⟨[], 0, []⟩, none, AccountCursorPos.seek 0, none⟩
      AccountCursorCache.empty rfl,
    C6_error_commits_are_bounded.2.1
      ⟨⟨[(1, 10)], 0, [true]⟩, some 1, AccountCursorPos.seek 1, some (1, 10)⟩
      AccountCursorCache.empty ()
      ⟨⟨[(1, 10)], 0, []⟩, some 1, AccountCursorPos.next 1 0, some (1, 10)⟩
      ⟨[], [(1, ⟨none, []⟩)]⟩ rfl,
    C6_error_commits_are_bounded.2.2.1
      ⟨⟨[], [], 0, [true]⟩, StorageCursorPos.uninit, StorageCursorPos.uninit⟩
      HashedStorageCursorCache.empty 0 ()
      ⟨⟨[], [], 0, []⟩, StorageCursorPos.uninit, StorageCursorPos.uninit⟩
      HashedStorageCursorCache.empty rfl,
    C6_error_commits_are_bounded.2.2.2.1
      ⟨⟨[], [], 0, [true]⟩, StorageCursorPos.uninit, StorageCursorPos.uninit⟩
      HashedStorageCursorCache.empty 0 0 ()
      ⟨⟨[], [], 0, []⟩, StorageCursorPos.uninit, StorageCursorPos.seek (0, 0) 0⟩
      ⟨[], [((0, 0), ⟨none, []⟩)]⟩ rfl,
    C6_error_commits_are_bounded.2.2.2.2.1
      ⟨⟨[], [], 0, [true]⟩, StorageCursorPos.seek (0, 0) 0, StorageCursorPos.seek (0, 0) 0⟩
      HashedStorageCursorCache.empty ()
      ⟨⟨[], [], 0, []⟩, StorageCursorPos.seek (0, 0) 0, StorageCursorPos.seek (0, 0) 1⟩
      ⟨[], [((0, 0), ⟨none, []⟩)]⟩ rfl,
    C6_error_commits_are_bounded.2.2.2.2.2.1
      ⟨⟨[], 0, [true]⟩, SeekArgs.none, SeekArgs.none⟩
      TrieCursorCache.empty 0 ()
      ⟨⟨[], 0, []⟩, SeekArgs.none, SeekArgs.seek_exact 0⟩
      TrieCursorCache.empty rfl,
    C6_error_commits_are_bounded.2.2.2.2.2.2.1
      ⟨⟨[], 0, [true]⟩, SeekArgs.none, SeekArgs.none⟩
      TrieCursorCache.empty 0 ()
      ⟨⟨[], 0, []⟩, SeekArgs.none, SeekArgs.seek 0⟩
      TrieCursorCache.empty rfl,
    C6_error_commits_are_bounded.2.2.2.2.2.2.2
      ⟨⟨[], 0, [true]⟩, SeekArgs.seek 0, SeekArgs.seek 0⟩
      TrieCursorCache.empty ()
      ⟨⟨[], 0, []⟩, SeekArgs.seek 0, SeekArgs.seek 0⟩
      TrieCursorCache.empty rfl⟩
